import Mathlib

/-
Verification development for the polytaxes FIFO capital-gains calculator
(src/calculator.ts).  The TypeScript source is shallowly embedded below:
JavaScript numbers are modelled as exact rationals (ℚ), timestamps as
integers (seconds), and the per-position inventory Map as an
insertion-ordered association list.  Floating-point artefacts (NaN,
Infinity, binary rounding) are outside the model; where a modelled
operation diverges from IEEE semantics (division by zero) this is noted
at the definition.
-/

namespace Polytaxes

/-! ## Numeric utilities (calculator.ts `round`, `sumBy`) -/

/-- JavaScript `Math.round`: round half toward positive infinity,
`Math.round x = ⌊x + 1/2⌋`. -/
def mathRound (x : ℚ) : ℤ := ⌊x + 1/2⌋

/-- `round(num, decimals)` from calculator.ts:
`Math.round(num * Math.pow(10, decimals)) / Math.pow(10, decimals)`. -/
def round (num : ℚ) (decimals : ℕ) : ℚ :=
  (mathRound (num * 10 ^ decimals) : ℚ) / 10 ^ decimals

/-- The source only ever calls `round` with the default `decimals = 2`. -/
def round2 (num : ℚ) : ℚ := round num 2

/-- `sumBy(arr, key)`: sum of one numeric field over a list.  The source's
`(item[key] || 0)` guard is the identity here because every modelled field
is a rational (JS `undefined`/`NaN` do not occur in the model). -/
def sumBy {α : Type} (f : α → ℚ) : List α → ℚ
  | [] => 0
  | a :: l => f a + sumBy f l

/-- The matching epsilon `0.0001` used throughout calculator.ts. -/
def epsilon : ℚ := 1/10000

/-! ## Calendar (calculator.ts `formatDate` and the tax-year-end date)

The source builds dates with the host JavaScript `Date` in local time; the
model fixes the timezone offset to zero (UTC).  Civil-calendar conversion
uses the standard Euclidean-affine algorithms over `Int.fdiv` (floor
division, matching `Math.floor` of a real quotient). -/

/-- Days since 1970-01-01 of a Gregorian civil date (proleptic). -/
def daysFromCivil (y m d : ℤ) : ℤ :=
  let y' := if m ≤ 2 then y - 1 else y
  let era := Int.fdiv y' 400
  let yoe := y' - era * 400
  let mp := (m + 9) % 12
  let doy := Int.fdiv (153 * mp + 2) 5 + d - 1
  let doe := yoe * 365 + Int.fdiv yoe 4 - Int.fdiv yoe 100 + doy
  era * 146097 + doe - 719468

/-- Gregorian civil date (year, month, day) of a count of days since
1970-01-01. -/
def civilFromDays (z : ℤ) : ℤ × ℤ × ℤ :=
  let z' := z + 719468
  let era := Int.fdiv z' 146097
  let doe := z' - era * 146097
  let yoe := Int.fdiv (doe - Int.fdiv doe 1460 + Int.fdiv doe 36524 - Int.fdiv doe 146096) 365
  let y := yoe + era * 400
  let doy := doe - (365 * yoe + Int.fdiv yoe 4 - Int.fdiv yoe 100)
  let mp := Int.fdiv (5 * doy + 2) 153
  let d := doy - Int.fdiv (153 * mp + 2) 5 + 1
  let m := if mp < 10 then mp + 3 else mp - 9
  (if m ≤ 2 then y + 1 else y, m, d)

/-- `String(n).padStart(2, '0')` for the month/day fields. -/
def pad2 (n : ℤ) : String :=
  let s := toString n
  if s.length < 2 then "0" ++ s else s

/-- `formatDate(timestamp)`: `MM/DD/YYYY` of the timestamp's calendar day
(timezone fixed at UTC in the model). -/
def formatDate (timestamp : ℤ) : String :=
  let date := civilFromDays (Int.fdiv timestamp 86400)
  pad2 date.2.1 ++ "/" ++ pad2 date.2.2 ++ "/" ++ toString date.1

/-- `new Date(taxYear, 11, 31, 23, 59, 59).getTime() / 1000`: the timestamp
of Dec 31, 23:59:59 of the tax year (UTC in the model). -/
def taxYearEndTs (taxYear : ℤ) : ℤ :=
  daysFromCivil taxYear 12 31 * 86400 + (23 * 3600 + 59 * 60 + 59)

/-! ## String utilities (calculator.ts `truncate`; JS `split`/`join`) -/

/-- Index of the last space in a character list, `-1` when there is none
(JS `String.prototype.lastIndexOf(' ')`). -/
def lastSpaceIdx : List Char → ℤ
  | [] => -1
  | c :: cs =>
    let r := lastSpaceIdx cs
    if 0 ≤ r then r + 1 else if c = ' ' then 0 else -1

/-- JS `String.prototype.trim` (the model trims exactly the whitespace
characters `Char.isWhitespace` recognises). -/
def jsTrim (s : String) : String :=
  ⟨(s.data.dropWhile Char.isWhitespace).reverse.dropWhile Char.isWhitespace |>.reverse⟩

/-- `truncate(str, maxLen)` from calculator.ts: cut at `maxLen - 3`, prefer
the last space when it falls past half of `maxLen`, trim, append `"..."`.
The `!str` early return coincides with the length test for the empty
string. -/
def truncate (str : String) (maxLen : ℕ) : String :=
  if str.length ≤ maxLen then str
  else
    let cutPoint := maxLen - 3
    let lastSpace := lastSpaceIdx (str.data.take cutPoint)
    let cutPoint' : ℕ := if (maxLen : ℚ) * (1/2) < (lastSpace : ℚ) then lastSpace.toNat else cutPoint
    jsTrim ⟨str.data.take cutPoint'⟩ ++ "..."

/-- JS `String.prototype.toUpperCase`, modelled character-wise (the model
upper-cases ASCII letters; full Unicode case mapping is out of scope). -/
def jsToUpper (s : String) : String := ⟨s.data.map Char.toUpper⟩

/-- JS `String.prototype.split` with a one-character separator, on
character lists.  Always returns a non-empty list of groups. -/
def jsSplitChar (sep : Char) : List Char → List (List Char)
  | [] => [[]]
  | c :: cs =>
    match jsSplitChar sep cs with
    | [] => [[]]
    | g :: gs => if c = sep then [] :: g :: gs else (c :: g) :: gs

/-- JS `Array.prototype.join` with a one-character separator. -/
def joinChar (sep : Char) : List (List Char) → List Char
  | [] => []
  | [g] => g
  | g :: gs => g ++ sep :: joinChar sep gs

/-! ## Data model (types.ts) -/

inductive TradeType where
  | TRADE
  | REDEEM
  deriving DecidableEq

inductive Side where
  | BUY
  | SELL
  deriving DecidableEq

structure PolymarketTrade where
  timestamp : ℤ
  type : TradeType
  side : Side
  conditionId : String
  outcome : String
  size : ℚ
  usdcSize : ℚ
  price : ℚ
  transactionHash : String
  title : String
  deriving DecidableEq

structure TokenInfo where
  outcome : String
  winner : Bool
  price : ℚ
  deriving DecidableEq

structure MarketData where
  question : String
  closed : Bool
  condition_id : String
  tokens : List TokenInfo
  deriving DecidableEq

structure Form8949Entry where
  description : String
  dateAcquired : String
  dateSold : String
  proceeds : ℚ
  costBasis : ℚ
  gainLoss : ℚ
  isLongTerm : Bool
  holdingDays : ℤ
  deriving DecidableEq

structure InventoryLot where
  acquisitionDate : ℤ
  quantity : ℚ
  costBasisPerToken : ℚ
  totalCostBasis : ℚ
  marketTitle : String
  transactionHash : String
  outcome : String
  deriving DecidableEq

structure OpenPosition where
  positionKey : String
  conditionId : String
  outcome : String
  quantity : ℚ
  costBasis : ℚ
  lots : List InventoryLot
  title : String
  deriving DecidableEq

structure Summary where
  count : ℕ
  totalProceeds : ℚ
  totalCostBasis : ℚ
  totalGainLoss : ℚ
  deriving DecidableEq

structure TaxReport where
  shortTerm : List Form8949Entry
  longTerm : List Form8949Entry
  shortTermSummary : Summary
  longTermSummary : Summary
  totalTransactions : ℕ
  totalGainLoss : ℚ
  warnings : List String
  openPositions : List OpenPosition
  deriving DecidableEq

/-! ## Trade normalizer (calculator.ts `normalizeTrade`) -/

/-- `normalizeTrade`: drop records whose `conditionId` or `outcome` is
falsy (the empty string in the model); turn `REDEEM` into a `SELL` at unit
price 1 with notional equal to quantity; otherwise derive a falsy (zero)
price as `usdcSize / size`.  NOTE: rational division by zero yields 0
where JavaScript would yield `Infinity`/`NaN`; a zero `size` is *not*
rejected here, faithfully to the source. -/
def normalizeTrade (trade : PolymarketTrade) : Option PolymarketTrade :=
  if trade.conditionId = "" ∨ trade.outcome = "" then none
  else if trade.type = TradeType.REDEEM then
    some { trade with side := Side.SELL, usdcSize := trade.size * 1, price := 1 }
  else
    some { trade with price := if trade.price ≠ 0 then trade.price else trade.usdcSize / trade.size }

/-! ## Inventory (the `Map<string, InventoryLot[]>`)

A JavaScript `Map` iterates in key-insertion order; the model is an
association list where `invSet` updates an existing key in place and
appends a missing one at the tail. -/

abbrev Inventory : Type := List (String × List InventoryLot)

/-- `inventory.get(key)`. -/
def invGet (inventory : Inventory) (key : String) : Option (List InventoryLot) :=
  ((inventory : List (String × List InventoryLot)).find? fun p => decide (p.1 = key)).map (·.2)

/-- `inventory.set(key, lots)`: overwrite in place, else append. -/
def invSet (inventory : Inventory) (key : String) (lots : List InventoryLot) : Inventory :=
  match inventory with
  | [] => [(key, lots)]
  | p :: rest => if p.1 = key then (key, lots) :: rest else p :: invSet rest key lots

/-- `addToInventory(inventory, key, trade)`: push a new lot at the tail of
the key's queue (creating the queue when absent).  `costBasisPerToken` is
`usdcSize / size` (0 in the model when `size = 0`, where JS stores a
non-finite number). -/
def addToInventory (inventory : Inventory) (key : String) (trade : PolymarketTrade) : Inventory :=
  invSet inventory key (((invGet inventory key).getD []) ++
    [{ acquisitionDate := trade.timestamp
       quantity := trade.size
       costBasisPerToken := trade.usdcSize / trade.size
       totalCostBasis := trade.usdcSize
       marketTitle := trade.title
       transactionHash := trade.transactionHash
       outcome := trade.outcome }])

/-! ## FIFO matching (calculator.ts `matchSellToBuys`) -/

/-- The description text built for every entry of a sell. -/
def entryDescription (outcome title : String) : String :=
  jsToUpper outcome ++ " token - " ++ truncate title 55

/-- One Form 8949 entry for a (sell, lot) match of quantity `qty`. -/
def mkMatchEntry (trade : PolymarketTrade) (proceedsPerToken : ℚ)
    (lot : InventoryLot) (qty : ℚ) : Form8949Entry :=
  let proceeds := qty * proceedsPerToken
  let costBasis := qty * lot.costBasisPerToken
  let gainLoss := proceeds - costBasis
  let holdingDays := Int.fdiv (trade.timestamp - lot.acquisitionDate) 86400
  { description := entryDescription trade.outcome trade.title
    dateAcquired := formatDate lot.acquisitionDate
    dateSold := formatDate trade.timestamp
    proceeds := round2 proceeds
    costBasis := round2 costBasis
    gainLoss := round2 gainLoss
    isLongTerm := decide (365 ≤ holdingDays)
    holdingDays := holdingDays }

/-- The `while (remaining > 0.0001 && queue.length > 0)` loop of
`matchSellToBuys`, returning the emitted entries, the final `remaining`
and the final queue.  In the branch where the head lot keeps a remainder
`≥ epsilon` (so it is not shifted), `qty = min remaining lot.quantity`
must equal `remaining` (see `min_eq_left_of_epsilon_le` below), hence the
next loop test `remaining > 0.0001` fails at `remaining - qty = 0` and the
loop exits with the partially consumed lot left at the head; the branch
returns exactly that exit state. -/
def matchLoop (trade : PolymarketTrade) (proceedsPerToken : ℚ) :
    ℚ → List InventoryLot → List Form8949Entry × ℚ × List InventoryLot
  | remaining, [] => ([], remaining, [])
  | remaining, lot :: rest =>
    if epsilon < remaining then
      let qty := min remaining lot.quantity
      let entry := mkMatchEntry trade proceedsPerToken lot qty
      if lot.quantity - qty < epsilon then
        -- `queue.shift()`: the head lot is consumed (up to a sub-epsilon residue)
        let r := matchLoop trade proceedsPerToken (remaining - qty) rest
        (entry :: r.1, r.2.1, r.2.2)
      else
        (entry :: [], remaining - qty, { lot with quantity := lot.quantity - qty } :: rest)
    else ([], remaining, lot :: rest)

/-- The synthesized zero-cost-basis entry for an oversold remainder. -/
def mkOversellEntry (trade : PolymarketTrade) (proceedsPerToken remaining : ℚ) : Form8949Entry :=
  let proceeds := remaining * proceedsPerToken
  { description := entryDescription trade.outcome trade.title
    dateAcquired := "VARIOUS"
    dateSold := formatDate trade.timestamp
    proceeds := round2 proceeds
    costBasis := 0
    gainLoss := round2 proceeds
    isLongTerm := false
    holdingDays := 0 }

/-- The warning string `Sold ${remaining} more shares than owned for ${key}`
(rational-number rendering instead of JS decimal rendering). -/
def oversellWarning (remaining : ℚ) (key : String) : String :=
  "Sold " ++ toString remaining ++ " more shares than owned for " ++ key

/-- `matchSellToBuys(inventory, key, trade)`.  The in-place mutation of the
stored queue is made explicit: when the key is present its queue is
replaced by the loop's final queue; when absent the loop ran on a fresh
empty array and the map is unchanged. -/
def matchSellToBuys (inventory : Inventory) (key : String) (trade : PolymarketTrade) :
    List Form8949Entry × Option String × Inventory :=
  let queue := (invGet inventory key).getD []
  let proceedsPerToken := trade.usdcSize / trade.size
  let r := matchLoop trade proceedsPerToken trade.size queue
  let inventory' := if (invGet inventory key).isSome then invSet inventory key r.2.2 else inventory
  if epsilon < r.2.1 then
    (r.1 ++ [mkOversellEntry trade proceedsPerToken r.2.1],
     some (oversellWarning r.2.1 key), inventory')
  else (r.1, none, inventory')

/-! ## The processing loop of `generateTaxReport` -/

/-- The per-position key `${trade.conditionId}-${trade.outcome}`. -/
def tradeKey (trade : PolymarketTrade) : String :=
  trade.conditionId ++ "-" ++ trade.outcome

structure EngineState where
  inventory : Inventory
  entries : List Form8949Entry
  warnings : List String

/-- One iteration of the `for (const trade of normalized)` loop. -/
def processTrade (s : EngineState) (trade : PolymarketTrade) : EngineState :=
  match trade.side with
  | Side.BUY => { s with inventory := addToInventory s.inventory (tradeKey trade) trade }
  | Side.SELL =>
    let r := matchSellToBuys s.inventory (tradeKey trade) trade
    { inventory := r.2.2
      entries := s.entries ++ r.1
      warnings := s.warnings ++ r.2.1.toList }

/-! ## Open positions (calculator.ts `collectOpenPositions`) -/

/-- The destructuring `const [conditionId, ...outcomeParts] = key.split('-')`
with `outcome = outcomeParts.join('-')`. -/
def splitKey (key : String) : String × String :=
  match jsSplitChar '-' key.data with
  | [] => ("", "")
  | g :: gs => (⟨g⟩, ⟨joinChar '-' gs⟩)

/-- `collectOpenPositions(inventory)`: one snapshot per key whose queue is
non-empty, in map (insertion) order. -/
def collectOpenPositions (inventory : Inventory) : List OpenPosition :=
  (inventory : List (String × List InventoryLot)).filterMap fun p =>
    match p.2 with
    | [] => none
    | l0 :: ls =>
      some { positionKey := p.1
             conditionId := (splitKey p.1).1
             outcome := (splitKey p.1).2
             quantity := sumBy (·.quantity) (l0 :: ls)
             costBasis := sumBy (·.totalCostBasis) (l0 :: ls)
             lots := l0 :: ls
             title := l0.marketTitle }

/-! ## Worthless-position resolver (calculator.ts `processWorthlessPositions`)

The external `fetchMarketsBatch` lookup is held fixed as a mapping
`String → Option MarketData`; deduplication of condition ids before the
batched fetch does not affect a pure mapping. -/

/-- The write-off entry for one lot of a worthless position. -/
def mkWorthlessEntry (position : OpenPosition) (taxYearEnd : ℤ) (lot : InventoryLot) :
    Form8949Entry :=
  let holdingDays := Int.fdiv (taxYearEnd - lot.acquisitionDate) 86400
  { description := entryDescription position.outcome position.title
    dateAcquired := formatDate lot.acquisitionDate
    dateSold := formatDate taxYearEnd
    proceeds := 0
    costBasis := round2 (lot.quantity * lot.costBasisPerToken)
    gainLoss := -(round2 (lot.quantity * lot.costBasisPerToken))
    isLongTerm := decide (365 ≤ holdingDays)
    holdingDays := holdingDays }

/-- `processWorthlessPositions(positions, taxYearEnd)` with the market
lookup as an explicit parameter.  `!market?.closed` skips both a missing
market and an open one; a market with no winning token is skipped; a
position is worthless iff its outcome differs case-insensitively from the
winner's. -/
def processWorthlessPositions (marketMap : String → Option MarketData)
    (positions : List OpenPosition) (taxYearEnd : ℤ) : List Form8949Entry :=
  positions.foldl
    (fun acc position =>
      match marketMap position.conditionId with
      | none => acc
      | some market =>
        if market.closed then
          match market.tokens.find? (·.winner) with
          | none => acc
          | some winner =>
            if jsToUpper position.outcome ≠ jsToUpper winner.outcome then
              acc ++ position.lots.map (mkWorthlessEntry position taxYearEnd)
            else acc
        else acc)
    []

/-! ## Summaries and the report (calculator.ts `calculateSummary`,
`generateTaxReport`) -/

def calculateSummary (entries : List Form8949Entry) : Summary :=
  { count := entries.length
    totalProceeds := round2 (sumBy (·.proceeds) entries)
    totalCostBasis := round2 (sumBy (·.costBasis) entries)
    totalGainLoss := round2 (sumBy (·.gainLoss) entries) }

/-- The chronological sort `normalized.sort((a, b) => a.timestamp - b.timestamp)`.
`Array.prototype.sort` is a stable sort (ES2019); its output is the unique
permutation sorted by timestamp that preserves the relative order of
timestamp ties, modelled by stable insertion sort. -/
def sortByTimestamp (trades : List PolymarketTrade) : List PolymarketTrade :=
  trades.insertionSort fun a b => a.timestamp ≤ b.timestamp

/-- `generateTaxReport(trades, taxYear)` with the external market
resolution held fixed as `marketMap`. -/
def generateTaxReport (marketMap : String → Option MarketData)
    (taxYear : ℤ) (trades : List PolymarketTrade) : TaxReport :=
  let taxYearEnd := taxYearEndTs taxYear
  let normalized := trades.filterMap normalizeTrade
  let sorted := sortByTimestamp normalized
  let s := sorted.foldl processTrade ⟨[], [], []⟩
  let openPositions := collectOpenPositions s.inventory
  let worthlessEntries :=
    if 0 < openPositions.length then processWorthlessPositions marketMap openPositions taxYearEnd
    else []
  let entries := s.entries ++ worthlessEntries
  let shortTerm := entries.filter fun e => !e.isLongTerm
  let longTerm := entries.filter fun e => e.isLongTerm
  { shortTerm := shortTerm
    longTerm := longTerm
    shortTermSummary := calculateSummary shortTerm
    longTermSummary := calculateSummary longTerm
    totalTransactions := entries.length
    totalGainLoss := round2 (sumBy (·.gainLoss) entries)
    warnings := s.warnings
    openPositions := openPositions }

/-! ## Named pipeline stages (the `let`s of `generateTaxReport`) -/

/-- The normalized, chronologically sorted trade stream. -/
def normalizedSorted (trades : List PolymarketTrade) : List PolymarketTrade :=
  sortByTimestamp (trades.filterMap normalizeTrade)

/-- The matching engine's full pass over a trade stream. -/
def runEngine (trades : List PolymarketTrade) : EngineState :=
  trades.foldl processTrade ⟨[], [], []⟩

/-- All disposal entries of the report: FIFO-matched (with oversell
remainders) followed by the worthless write-offs. -/
def allReportEntries (marketMap : String → Option MarketData)
    (taxYear : ℤ) (trades : List PolymarketTrade) : List Form8949Entry :=
  (runEngine (normalizedSorted trades)).entries ++
    (if 0 < (collectOpenPositions (runEngine (normalizedSorted trades)).inventory).length
     then processWorthlessPositions marketMap
            (collectOpenPositions (runEngine (normalizedSorted trades)).inventory)
            (taxYearEndTs taxYear)
     else [])

/-- The `while` loop's result for one sell against its key's stored queue. -/
def sellLoopResult (inventory : Inventory) (key : String) (trade : PolymarketTrade) :
    List Form8949Entry × ℚ × List InventoryLot :=
  matchLoop trade (trade.usdcSize / trade.size) trade.size ((invGet inventory key).getD [])

/-! ## Ghost accounting (for the conservation invariant)

These definitions replay the engine's own functions; they add no new
behaviour, only per-key bookkeeping that the emitted entries do not store
explicitly. -/

/-- Total quantity held in one key's queue. -/
def keyQ (inventory : Inventory) (key : String) : ℚ :=
  sumBy (·.quantity) ((invGet inventory key).getD [])

/-- Sum of BUY quantities on one position key in a trade stream. -/
def buySum (key : String) : List PolymarketTrade → ℚ
  | [] => 0
  | t :: ts => (if t.side = Side.BUY ∧ tradeKey t = key then t.size else 0) + buySum key ts

/-- Replay of the engine on a stream, accumulating for one key:
the total quantity carried by the disposal entries of its sells (matched
lot quantities, plus the oversold remainder when the oversell branch
fires), the number of sells, and whether any sell on the key recorded an
oversell warning. -/
def auditKey (key : String) : Inventory → List PolymarketTrade → ℚ × ℕ × Bool
  | _, [] => (0, 0, false)
  | inv, t :: ts =>
    let inv' := (processTrade ⟨inv, [], []⟩ t).inventory
    let rest := auditKey key inv' ts
    if tradeKey t = key ∧ t.side = Side.SELL then
      let r := (sellLoopResult inv key t).2.1
      (rest.1 + (t.size - r) + (if epsilon < r then r else 0),
       rest.2.1 + 1,
       rest.2.2 || decide (epsilon < r))
    else rest

/-- All lot quantities stored in an inventory are nonnegative. -/
def NonnegInv (inventory : Inventory) : Prop :=
  ∀ p ∈ inventory, ∀ lot ∈ p.2, 0 ≤ lot.quantity

/-! ## Specification-side definitions (for refinement comparisons only) -/

/-- Stated by the spec: rounding half away from zero at 2-decimal
granularity. -/
def roundAway2 (x : ℚ) : ℚ :=
  if 0 ≤ x then (⌊x * 100 + 1/2⌋ : ℚ) / 100 else -((⌊-x * 100 + 1/2⌋ : ℚ) / 100)

/-- The resolver's worthlessness test, isolated as a predicate: the market
is reported closed with a determined winner whose outcome differs
case-insensitively from the position's. -/
def marketWorthless (marketMap : String → Option MarketData) (position : OpenPosition) : Bool :=
  match marketMap position.conditionId with
  | none => false
  | some market =>
    market.closed &&
      (match market.tokens.find? (·.winner) with
       | none => false
       | some winner => jsToUpper position.outcome != jsToUpper winner.outcome)

/-- The entries the resolver owes one position: one write-off per lot when
the position is worthless, nothing otherwise. -/
def worthlessEntriesFor (marketMap : String → Option MarketData) (taxYearEnd : ℤ)
    (position : OpenPosition) : List Form8949Entry :=
  if marketWorthless marketMap position then position.lots.map (mkWorthlessEntry position taxYearEnd)
  else []

/-- A rational that is a whole number of cents. -/
def Cent (x : ℚ) : Prop := ∃ n : ℤ, x = (n : ℚ) / 100

/-- The shape of every entry the pipeline emits: either the three amounts
are independent 2-decimal roundings of unrounded proceeds/cost/difference
(FIFO matches, with `qc = 0` for oversell remainders), or it is a
worthless write-off with zero proceeds and gain/loss exactly minus the
stored cost basis. -/
def EntryOk (e : Form8949Entry) : Prop :=
  (∃ qp qc : ℚ, e.proceeds = round2 qp ∧ e.costBasis = round2 qc ∧ e.gainLoss = round2 (qp - qc)) ∨
  (∃ qc : ℚ, e.proceeds = 0 ∧ e.costBasis = round2 qc ∧ e.gainLoss = -e.costBasis)

instance : Inhabited Form8949Entry :=
  ⟨{ description := "", dateAcquired := "", dateSold := "", proceeds := 0, costBasis := 0,
     gainLoss := 0, isLongTerm := false, holdingDays := 0 }⟩

/-! ## Sorting-order instances for the timestamp relation -/

instance : IsTotal PolymarketTrade fun a b => a.timestamp ≤ b.timestamp :=
  ⟨fun a b => le_total a.timestamp b.timestamp⟩

instance : IsTrans PolymarketTrade fun a b => a.timestamp ≤ b.timestamp :=
  ⟨fun _ _ _ hab hbc => le_trans hab hbc⟩

/-! ## Concrete fixtures for the claims' scenarios -/

/-- An external resolution mapping that answers nothing. -/
def mmNone : String → Option MarketData := fun _ => none

def sampleBuy (ts : ℤ) (cid out : String) (size usdc : ℚ) : PolymarketTrade :=
  { timestamp := ts, type := TradeType.TRADE, side := Side.BUY, conditionId := cid,
    outcome := out, size := size, usdcSize := usdc, price := 1,
    transactionHash := "h", title := "T" }

def sampleSell (ts : ℤ) (cid out : String) (size usdc : ℚ) : PolymarketTrade :=
  { sampleBuy ts cid out size usdc with side := Side.SELL }

/-- The spec's FIFO scenario: B1(10 @ 1.0), B2(10 @ 2.0), sell 12 @ 3.0. -/
def fifoTrades : List PolymarketTrade :=
  [sampleBuy 1000 "cond" "Yes" 10 10, sampleBuy 2000 "cond" "Yes" 10 20,
   sampleSell 3000 "cond" "Yes" 12 36]

/-- Two buys leaving a sub-epsilon residue each, then matched exactly:
the silently dropped residues add up to 0.00018 > epsilon. -/
def cexC2Trades : List PolymarketTrade :=
  [sampleBuy 0 "c" "Y" (100009/100000) 1, sampleSell 10 "c" "Y" 1 1,
   sampleBuy 20 "c" "Y" (100009/100000) 1, sampleSell 30 "c" "Y" 1 1]

/-- Benign stream for instantiating the conservation bound. -/
def witC2Trades : List PolymarketTrade :=
  [sampleBuy 0 "w" "Y" 2 2, sampleSell 5 "w" "Y" 1 1]

/-- Buy at unit cost 0.996, sell at unit proceeds 1.004: all three stored
amounts round to whole cents independently. -/
def cexC5Trades : List PolymarketTrade :=
  [sampleBuy 0 "c" "Yes" 1 (249/250), sampleSell 86400 "c" "Yes" 1 (251/250)]

/-- Two same-timestamp buys at different unit costs, then a sell. -/
def cexC8a : List PolymarketTrade :=
  [sampleBuy 0 "c" "Yes" 10 10, sampleBuy 0 "c" "Yes" 10 20, sampleSell 10 "c" "Yes" 10 30]

/-- The same multiset with the two tied buys transposed. -/
def cexC8b : List PolymarketTrade :=
  [sampleBuy 0 "c" "Yes" 10 20, sampleBuy 0 "c" "Yes" 10 10, sampleSell 10 "c" "Yes" 10 30]

def witC8a : List PolymarketTrade :=
  [sampleBuy 0 "c" "Yes" 1 1, sampleSell 5 "c" "Yes" 1 1]

def witC8b : List PolymarketTrade :=
  [sampleSell 5 "c" "Yes" 1 1, sampleBuy 0 "c" "Yes" 1 1]

/-- Buy 10 @ unit cost 1, sell 4: the surviving lot keeps quantity 6 but
its `totalCostBasis` stays 10. -/
def cexC9Trades : List PolymarketTrade :=
  [sampleBuy 0 "c" "Yes" 10 10, sampleSell 5 "c" "Yes" 4 4]

/-- Distinct (conditionId, outcome) pairs ("a-b", "c") and ("a", "b-c")
encode to the same position key "a-b-c". -/
def cexC10Trades : List PolymarketTrade :=
  [sampleBuy 0 "a-b" "c" 1 1, sampleBuy 5 "a" "b-c" 2 2]

/-- A BUY with quantity zero and positive notional. -/
def zeroQtyTrade : PolymarketTrade := sampleBuy 0 "c" "Yes" 0 5

/-- A sell of 5 units against an empty queue. -/
def oversellSell : PolymarketTrade := sampleSell 0 "k" "Yes" 5 5

/-- A lot surviving with quantity 6 of an original 10 @ unit cost 1. -/
def lotC9 : InventoryLot :=
  { acquisitionDate := 0, quantity := 6, costBasisPerToken := 1, totalCostBasis := 10,
    marketTitle := "T", transactionHash := "h", outcome := "Yes" }

/-- The open position `collectOpenPositions` builds from `lotC9`. -/
def posC9 : OpenPosition :=
  { positionKey := "c-Yes", conditionId := "c", outcome := "Yes", quantity := 6,
    costBasis := 10, lots := [lotC9], title := "T" }

/-- One-lot open position on outcome "Yes" of market "m". -/
def wLot : InventoryLot :=
  { acquisitionDate := 0, quantity := 1, costBasisPerToken := 1, totalCostBasis := 1,
    marketTitle := "T", transactionHash := "h", outcome := "Yes" }

def wPos : OpenPosition :=
  { positionKey := "m-Yes", conditionId := "m", outcome := "Yes", quantity := 1,
    costBasis := 1, lots := [wLot], title := "T" }

/-- A resolution mapping whose market "m" is closed and won by the
position's own outcome. -/
def mmWin : String → Option MarketData := fun cid =>
  if cid = "m" then
    some { question := "q", closed := true, condition_id := "m",
           tokens := [{ outcome := "Yes", winner := true, price := 1 }] }
  else none

/-- A resolution mapping whose market "m" is closed and won by the other
outcome, making `wPos` worthless. -/
def mmLose : String → Option MarketData := fun cid =>
  if cid = "m" then
    some { question := "q", closed := true, condition_id := "m",
           tokens := [{ outcome := "No", winner := true, price := 1 }] }
  else none

/-! # Theorems -/

/-! ## Basic lemmas -/

lemma epsilon_pos : (0 : ℚ) < epsilon := by norm_num [epsilon]

/-- Unfolding of `generateTaxReport` through the named pipeline stages. -/
lemma generateTaxReport_def (mm : String → Option MarketData) (y : ℤ) (ts : List PolymarketTrade) :
    generateTaxReport mm y ts =
      { shortTerm := (allReportEntries mm y ts).filter fun e => !e.isLongTerm
        longTerm := (allReportEntries mm y ts).filter fun e => e.isLongTerm
        shortTermSummary := calculateSummary ((allReportEntries mm y ts).filter fun e => !e.isLongTerm)
        longTermSummary := calculateSummary ((allReportEntries mm y ts).filter fun e => e.isLongTerm)
        totalTransactions := (allReportEntries mm y ts).length
        totalGainLoss := round2 (sumBy (·.gainLoss) (allReportEntries mm y ts))
        warnings := (runEngine (normalizedSorted ts)).warnings
        openPositions := collectOpenPositions (runEngine (normalizedSorted ts)).inventory } :=
  rfl

/-- When the head lot would keep at least epsilon after a match, the
matched quantity was the full remaining amount. -/
lemma min_eq_left_of_epsilon_le {r lq : ℚ} (h : epsilon ≤ lq - min r lq) : min r lq = r := by
  rcases le_total r lq with h' | h'
  · exact min_eq_left h'
  · rw [min_eq_right h'] at h
    have := epsilon_pos
    linarith

/-- The loop does not run when `remaining ≤ epsilon`. -/
lemma matchLoop_low (t : PolymarketTrade) (ppt remaining : ℚ) (q : List InventoryLot)
    (h : ¬ epsilon < remaining) : matchLoop t ppt remaining q = ([], remaining, q) := by
  cases q with
  | nil => rfl
  | cons lot rest => simp [matchLoop, h]

/-- Loop postcondition: the loop stops only once the remaining quantity is
at or below epsilon or the queue has been exhausted. -/
lemma matchLoop_post (t : PolymarketTrade) (ppt : ℚ) (q : List InventoryLot) :
    ∀ remaining : ℚ,
      (matchLoop t ppt remaining q).2.1 ≤ epsilon ∨ (matchLoop t ppt remaining q).2.2 = [] := by
  induction q with
  | nil => intro remaining; right; rfl
  | cons lot rest ih =>
    intro remaining
    by_cases h : epsilon < remaining
    · by_cases h2 : lot.quantity - min remaining lot.quantity < epsilon
      · have := ih (remaining - min remaining lot.quantity)
        simpa [matchLoop, h, h2] using this
      · left
        have hmin : min remaining lot.quantity = remaining :=
          min_eq_left_of_epsilon_le (le_of_not_lt h2)
        have h2' : ¬ lot.quantity - remaining < epsilon := by
          rw [hmin] at h2; exact h2
        have heq : (matchLoop t ppt remaining (lot :: rest)).2.1 = remaining - remaining := by
          simp [matchLoop, h, hmin, h2']
        rw [heq, sub_self]
        exact le_of_lt epsilon_pos
    · left
      rw [matchLoop_low t ppt remaining (lot :: rest) h]
      exact le_of_not_lt h

/-! ## C1: FIFO matching from the head, and the spec's concrete scenario -/

/-- C1. The sell loop consumes lots from the head until the remaining
quantity is at or below epsilon or the queue is empty; on the spec's
scenario — buys B1(10 @ 1.0) then B2(10 @ 2.0), sell 12 @ 3.0 — exactly
two short-term entries (30, 10, 20) and (6, 4, 2) are produced, no
warning, and B2 retains 8 units open. -/
theorem claim_C1 :
    (∀ (t : PolymarketTrade) (ppt remaining : ℚ) (q : List InventoryLot),
        (matchLoop t ppt remaining q).2.1 ≤ epsilon ∨ (matchLoop t ppt remaining q).2.2 = []) ∧
    (generateTaxReport mmNone 2024 fifoTrades).shortTerm.map
        (fun e => (e.proceeds, e.costBasis, e.gainLoss)) = [(30, 10, 20), (6, 4, 2)] ∧
    (generateTaxReport mmNone 2024 fifoTrades).longTerm = [] ∧
    (generateTaxReport mmNone 2024 fifoTrades).warnings = [] ∧
    (generateTaxReport mmNone 2024 fifoTrades).openPositions.map
        (fun p => (p.quantity, p.lots.map (·.quantity))) = [(8, [8])] := by
  have h1 : Int.fdiv 2000 86400 = 0 := by decide
  have h2 : Int.fdiv 1000 86400 = 0 := by decide
  refine ⟨fun t ppt remaining q => matchLoop_post t ppt q remaining, ?_, ?_, ?_, ?_⟩ <;>
    norm_num [generateTaxReport, sortByTimestamp, List.insertionSort, List.orderedInsert,
      normalizeTrade, processTrade, matchSellToBuys, matchLoop, mkMatchEntry, addToInventory,
      invGet, invSet, tradeKey, epsilon, round2, Polytaxes.round, mathRound, sumBy,
      collectOpenPositions, processWorthlessPositions, calculateSummary,
      fifoTrades, sampleBuy, sampleSell, mmNone, List.filterMap_cons, h1, h2]

/-! ## C3: the oversell policy -/

/-- C3. The oversell branch fires exactly when the loop's final remaining
quantity exceeds epsilon — in which case the queue was exhausted — and
then appends one synthesized entry with cost basis 0, acquisition date
"VARIOUS", proceeds rounded from remaining × unit proceeds, gain/loss
equal to those proceeds, short-term with zero holding days, together with
exactly one warning carrying the key and the oversold quantity; otherwise
no warning and no extra entry is produced. -/
theorem claim_C3 (inv : Inventory) (k : String) (t : PolymarketTrade) :
    (epsilon < (sellLoopResult inv k t).2.1 →
      (sellLoopResult inv k t).2.2 = [] ∧
      (matchSellToBuys inv k t).1 =
        (sellLoopResult inv k t).1 ++
          [mkOversellEntry t (t.usdcSize / t.size) (sellLoopResult inv k t).2.1] ∧
      (matchSellToBuys inv k t).2.1 = some (oversellWarning (sellLoopResult inv k t).2.1 k) ∧
      (mkOversellEntry t (t.usdcSize / t.size) (sellLoopResult inv k t).2.1).costBasis = 0 ∧
      (mkOversellEntry t (t.usdcSize / t.size) (sellLoopResult inv k t).2.1).dateAcquired = "VARIOUS" ∧
      (mkOversellEntry t (t.usdcSize / t.size) (sellLoopResult inv k t).2.1).proceeds =
        round2 ((sellLoopResult inv k t).2.1 * (t.usdcSize / t.size)) ∧
      (mkOversellEntry t (t.usdcSize / t.size) (sellLoopResult inv k t).2.1).gainLoss =
        (mkOversellEntry t (t.usdcSize / t.size) (sellLoopResult inv k t).2.1).proceeds ∧
      (mkOversellEntry t (t.usdcSize / t.size) (sellLoopResult inv k t).2.1).isLongTerm = false ∧
      (mkOversellEntry t (t.usdcSize / t.size) (sellLoopResult inv k t).2.1).holdingDays = 0) ∧
    ((sellLoopResult inv k t).2.1 ≤ epsilon →
      (matchSellToBuys inv k t).2.1 = none ∧
      (matchSellToBuys inv k t).1 = (sellLoopResult inv k t).1) := by
  constructor
  · intro h
    refine ⟨?_, ?_, ?_, rfl, rfl, rfl, rfl, rfl, rfl⟩
    · have hpost := matchLoop_post t (t.usdcSize / t.size) ((invGet inv k).getD []) t.size
      simp only [sellLoopResult] at h ⊢
      rcases hpost with hle | hq
      · exact absurd h (not_lt.mpr hle)
      · exact hq
    · simp only [sellLoopResult] at h
      simp [matchSellToBuys, sellLoopResult, h]
    · simp only [sellLoopResult] at h
      simp [matchSellToBuys, sellLoopResult, h]
  · intro h
    have h' : ¬ epsilon < (sellLoopResult inv k t).2.1 := not_lt.mpr h
    simp only [sellLoopResult] at h'
    constructor <;> simp [matchSellToBuys, sellLoopResult, h']

/-- Witness for C3 at a concrete oversold sell (5 units, empty queue). -/
theorem claim_C3_witness :
    epsilon < (sellLoopResult [] "k-Yes" oversellSell).2.1 ∧
    (matchSellToBuys [] "k-Yes" oversellSell).2.1 =
      some (oversellWarning (sellLoopResult [] "k-Yes" oversellSell).2.1 "k-Yes") := by
  have h : epsilon < (sellLoopResult [] "k-Yes" oversellSell).2.1 := by
    norm_num [sellLoopResult, invGet, matchLoop, oversellSell, sampleSell, sampleBuy, epsilon]
  exact ⟨h, ((claim_C3 [] "k-Yes" oversellSell).1 h).2.2.1⟩

/-! ## C7: zero-quantity trades are not rejected (code bug) -/

/-- C7 is violated by the code: a BUY of quantity 0 with positive notional
passes normalization unchanged, reaches the engine, and a lot with
quantity 0 and unit cost `usdcSize / 0` is stored in the inventory (a
non-finite number in JavaScript; rational division by zero renders it as
0 in the model). -/
theorem claim_C7_code_bug :
    normalizeTrade zeroQtyTrade = some zeroQtyTrade ∧
    zeroQtyTrade.size = 0 ∧
    normalizedSorted [zeroQtyTrade] = [zeroQtyTrade] ∧
    ((invGet (runEngine (normalizedSorted [zeroQtyTrade])).inventory
        (tradeKey zeroQtyTrade)).getD []).map
        (fun lot => (lot.quantity, lot.costBasisPerToken)) = [(0, 5 / 0)] := by
  refine ⟨?_, rfl, ?_, ?_⟩ <;>
    norm_num [normalizeTrade, normalizedSorted, sortByTimestamp, List.insertionSort,
      List.orderedInsert, runEngine, processTrade, addToInventory, invGet, invSet,
      tradeKey, zeroQtyTrade, sampleBuy] <;>
    decide

/-! ## C4: the worthless-position resolver -/

/-- A fold whose step only appends factors through `flatMap`. -/
lemma foldl_append_of_step {α β : Type} (F : List β → α → List β) (g : α → List β)
    (hF : ∀ acc x, F acc x = acc ++ g x) :
    ∀ (l : List α) (acc : List β), l.foldl F acc = acc ++ l.flatMap g := by
  intro l
  induction l with
  | nil => intro acc; simp
  | cons x xs ih =>
    intro acc
    rw [List.foldl_cons, hF, ih, List.flatMap_cons, List.append_assoc]

/-- The resolver's accumulating loop equals one write-off block per
worthless position, in position order. -/
lemma processWorthless_eq (mm : String → Option MarketData) (tye : ℤ)
    (ps : List OpenPosition) :
    processWorthlessPositions mm ps tye = ps.flatMap (worthlessEntriesFor mm tye) := by
  unfold processWorthlessPositions
  rw [foldl_append_of_step _ (worthlessEntriesFor mm tye) ?_ ps []]
  · simp
  · intro acc p
    unfold worthlessEntriesFor marketWorthless
    cases hm : mm p.conditionId with
    | none => simp
    | some market =>
      cases hc : market.closed with
      | false => simp [hc]
      | true =>
        cases hw : market.tokens.find? (·.winner) with
        | none => simp [hc, hw]
        | some winner =>
          by_cases ho : jsToUpper p.outcome ≠ jsToUpper winner.outcome
          · simp [hc, hw, ho, bne_iff_ne]
          · simp [hc, hw, ho, bne_iff_ne]

/-- C4. The resolver emits, for each position whose market is closed with
a determined winner of a (case-insensitively) different outcome, exactly
one entry per constituent lot — zero proceeds, cost basis the lot's
remaining basis, gain/loss its negation, sale date and holding days fixed
at the tax-year-end timestamp (Dec 31, 23:59:59) — and nothing for any
other position; positions are never removed from `openPositions`, and a
closed market won by the position's own outcome produces no entry. -/
theorem claim_C4 (mm : String → Option MarketData) (y : ℤ) :
    (∀ ps : List OpenPosition,
        processWorthlessPositions mm ps (taxYearEndTs y) =
          ps.flatMap (worthlessEntriesFor mm (taxYearEndTs y))) ∧
    (∀ p : OpenPosition, marketWorthless mm p = true →
        worthlessEntriesFor mm (taxYearEndTs y) p =
          p.lots.map (mkWorthlessEntry p (taxYearEndTs y))) ∧
    (∀ p : OpenPosition, marketWorthless mm p = false →
        worthlessEntriesFor mm (taxYearEndTs y) p = []) ∧
    (∀ (p : OpenPosition) (lot : InventoryLot),
        (mkWorthlessEntry p (taxYearEndTs y) lot).proceeds = 0 ∧
        (mkWorthlessEntry p (taxYearEndTs y) lot).costBasis =
          round2 (lot.quantity * lot.costBasisPerToken) ∧
        (mkWorthlessEntry p (taxYearEndTs y) lot).gainLoss =
          -(mkWorthlessEntry p (taxYearEndTs y) lot).costBasis ∧
        (mkWorthlessEntry p (taxYearEndTs y) lot).dateSold = formatDate (taxYearEndTs y) ∧
        (mkWorthlessEntry p (taxYearEndTs y) lot).holdingDays =
          Int.fdiv (taxYearEndTs y - lot.acquisitionDate) 86400 ∧
        (mkWorthlessEntry p (taxYearEndTs y) lot).isLongTerm =
          decide (365 ≤ Int.fdiv (taxYearEndTs y - lot.acquisitionDate) 86400)) ∧
    (∀ ts : List PolymarketTrade,
        (generateTaxReport mm y ts).openPositions =
          collectOpenPositions (runEngine (normalizedSorted ts)).inventory) ∧
    marketWorthless mmWin wPos = false ∧
    processWorthlessPositions mmWin [wPos] (taxYearEndTs y) = [] ∧
    marketWorthless mmLose wPos = true ∧
    processWorthlessPositions mmLose [wPos] (taxYearEndTs y) =
      wPos.lots.map (mkWorthlessEntry wPos (taxYearEndTs y)) ∧
    formatDate (taxYearEndTs 2024) = "12/31/2024" := by
  have hwin : marketWorthless mmWin wPos = false := by
    simp [marketWorthless, mmWin, wPos, List.find?_cons, bne_self_eq_false]
  have hlose : marketWorthless mmLose wPos = true := by decide
  refine ⟨fun ps => processWorthless_eq mm (taxYearEndTs y) ps,
    ?_, ?_, ?_, ?_, hwin, ?_, hlose, ?_, by decide⟩
  · intro p hp; simp [worthlessEntriesFor, hp]
  · intro p hp; simp [worthlessEntriesFor, hp]
  · intro p lot
    exact ⟨rfl, rfl, rfl, rfl, rfl, rfl⟩
  · intro ts; rw [generateTaxReport_def]
  · rw [processWorthless_eq]
    simp [worthlessEntriesFor, hwin]
  · rw [processWorthless_eq]
    simp [worthlessEntriesFor, hlose]

/-- Witness for C4's conditional clauses at concrete positions: one on the
winning outcome of its closed market (no entry), one on the losing
outcome (one write-off per lot). -/
theorem claim_C4_witness :
    marketWorthless mmWin wPos = false ∧
    worthlessEntriesFor mmWin (taxYearEndTs 2024) wPos = [] ∧
    marketWorthless mmLose wPos = true ∧
    worthlessEntriesFor mmLose (taxYearEndTs 2024) wPos =
      wPos.lots.map (mkWorthlessEntry wPos (taxYearEndTs 2024)) := by
  have hwin : marketWorthless mmWin wPos = false := (claim_C4 mmWin 2024).2.2.2.2.2.1
  have hlose : marketWorthless mmLose wPos = true := (claim_C4 mmLose 2024).2.2.2.2.2.2.2.1
  exact ⟨hwin, (claim_C4 mmWin 2024).2.2.1 wPos hwin, hlose,
    (claim_C4 mmLose 2024).2.1 wPos hlose⟩

/-! ## C9: open-position snapshots -/

/-- Characterization of every position built by `collectOpenPositions`. -/
lemma mem_collectOpenPositions {inv : Inventory} {p : OpenPosition}
    (hp : p ∈ collectOpenPositions inv) :
    p.quantity = sumBy (·.quantity) p.lots ∧
    p.costBasis = sumBy (·.totalCostBasis) p.lots ∧
    p.lots ≠ [] ∧
    (∀ l0 ls, p.lots = l0 :: ls → p.title = l0.marketTitle) ∧
    (p.conditionId, p.outcome) = splitKey p.positionKey ∧
    (p.positionKey, p.lots) ∈ inv := by
  unfold collectOpenPositions at hp
  rcases List.mem_filterMap.mp hp with ⟨⟨k, lots⟩, hmem, heq⟩
  cases lots with
  | nil => simp at heq
  | cons l0 ls =>
    simp only [Option.some.injEq] at heq
    subst heq
    refine ⟨rfl, rfl, by simp, ?_, rfl, hmem⟩
    intro l0' ls' h
    simp only [List.cons.injEq] at h
    rw [← h.1]

/-- C9 (amended): each `OpenPosition`, built once after all trades are
processed, carries its key's surviving lots, total quantity the sum of
their remaining quantities, title the first lot's, and cost basis the sum
of the lots' *original* `totalCostBasis` fields — not the remaining cost
basis, which it can exceed after partial consumption. -/
theorem claim_C9_amended {inv : Inventory} {p : OpenPosition}
    (hp : p ∈ collectOpenPositions inv) :
    p.quantity = sumBy (·.quantity) p.lots ∧
    p.costBasis = sumBy (·.totalCostBasis) p.lots ∧
    p.lots ≠ [] ∧
    (∀ l0 ls, p.lots = l0 :: ls → p.title = l0.marketTitle) ∧
    (p.positionKey, p.lots) ∈ inv ∧
    (∀ (mm : String → Option MarketData) (y : ℤ) (ts : List PolymarketTrade),
        (generateTaxReport mm y ts).openPositions =
          collectOpenPositions (runEngine (normalizedSorted ts)).inventory) := by
  obtain ⟨h1, h2, h3, h4, _, h6⟩ := mem_collectOpenPositions hp
  exact ⟨h1, h2, h3, h4, h6, fun mm y ts => by rw [generateTaxReport_def]⟩

/-- Witness for C9's amendment on a one-lot inventory. -/
theorem claim_C9_witness :
    posC9.quantity = sumBy (·.quantity) posC9.lots ∧
    posC9.costBasis = sumBy (·.totalCostBasis) posC9.lots := by
  have hp : posC9 ∈ collectOpenPositions [("c-Yes", [lotC9])] := by
    have hsk : splitKey "c-Yes" = ("c", "Yes") := by decide
    norm_num [collectOpenPositions, List.filterMap_cons, sumBy, posC9, lotC9, hsk]
  obtain ⟨h1, h2, _⟩ := claim_C9_amended hp
  exact ⟨h1, h2⟩

/-- C9's claim as stated is false: after buying 10 @ 1 and selling 4, the
snapshot reports cost basis 10 (the original total) while the remaining
cost basis of its lots is 6. -/
theorem claim_C9_counterexample :
    (generateTaxReport mmNone 2024 cexC9Trades).openPositions.map
        (fun p => (p.costBasis, sumBy (fun l => l.quantity * l.costBasisPerToken) p.lots)) =
      [(10, 6)] ∧ (10 : ℚ) ≠ 6 := by
  constructor
  · norm_num [generateTaxReport, sortByTimestamp, List.insertionSort, List.orderedInsert,
      normalizeTrade, processTrade, matchSellToBuys, matchLoop, mkMatchEntry, addToInventory,
      invGet, invSet, tradeKey, epsilon, round2, Polytaxes.round, mathRound, sumBy,
      collectOpenPositions, processWorthlessPositions, calculateSummary,
      cexC9Trades, sampleBuy, sampleSell, mmNone, List.filterMap_cons]
  · norm_num

/-! ## C10: position-key encoding and decoding -/

lemma jsSplitChar_ne_nil (sep : Char) : ∀ l : List Char, jsSplitChar sep l ≠ [] := by
  intro l
  induction l with
  | nil => simp [jsSplitChar]
  | cons c cs ih =>
    cases h : jsSplitChar sep cs with
    | nil => exact absurd h ih
    | cons g gs =>
      by_cases hc : c = sep <;> simp [jsSplitChar, h, hc]

/-- Splitting at the first separator occurrence. -/
lemma jsSplitChar_append_sep (sep : Char) :
    ∀ pre rest : List Char, sep ∉ pre →
      jsSplitChar sep (pre ++ sep :: rest) = pre :: jsSplitChar sep rest := by
  intro pre
  induction pre with
  | nil =>
    intro rest _
    cases h : jsSplitChar sep rest with
    | nil => exact absurd h (jsSplitChar_ne_nil sep rest)
    | cons g gs => simp [jsSplitChar, h]
  | cons c pre ih =>
    intro rest hmem
    have hc : c ≠ sep := fun h => hmem (h ▸ List.mem_cons_self c pre)
    have hpre : sep ∉ pre := fun h => hmem (List.mem_cons_of_mem c h)
    simp [jsSplitChar, ih rest hpre, hc]

/-- `join('-')` undoes `split('-')`. -/
lemma joinChar_jsSplitChar (sep : Char) : ∀ l : List Char, joinChar sep (jsSplitChar sep l) = l := by
  intro l
  induction l with
  | nil => rfl
  | cons c cs ih =>
    cases h : jsSplitChar sep cs with
    | nil => exact absurd h (jsSplitChar_ne_nil sep cs)
    | cons g gs =>
      rw [h] at ih
      by_cases hc : c = sep
      · have hsplit : jsSplitChar sep (c :: cs) = [] :: g :: gs := by
          simp [jsSplitChar, h, hc]
        rw [hsplit, show joinChar sep ([] :: g :: gs) = sep :: joinChar sep (g :: gs) from rfl,
          ih, hc]
      · have hsplit : jsSplitChar sep (c :: cs) = (c :: g) :: gs := by
          simp [jsSplitChar, h, hc]
        rw [hsplit]
        cases gs with
        | nil =>
          have ih' : g = cs := ih
          show c :: g = c :: cs
          rw [ih']
        | cons g2 gs2 =>
          have ih' : g ++ sep :: joinChar sep (g2 :: gs2) = cs := ih
          show (c :: g) ++ sep :: joinChar sep (g2 :: gs2) = c :: cs
          rw [List.cons_append, ih']

/-- Decomposition of a list at the first occurrence of an element. -/
lemma exists_first_sep (sep : Char) :
    ∀ l : List Char, sep ∈ l → ∃ pre suf, l = pre ++ sep :: suf ∧ sep ∉ pre := by
  intro l
  induction l with
  | nil => intro h; simp at h
  | cons c cs ih =>
    intro h
    by_cases hc : c = sep
    · exact ⟨[], cs, by simp [hc], by simp⟩
    · have : sep ∈ cs := by
        rcases List.mem_cons.mp h with h' | h'
        · exact absurd h'.symm hc
        · exact h'
      obtain ⟨pre, suf, heq, hpre⟩ := ih this
      exact ⟨c :: pre, suf, by simp [heq], by
        intro hmem
        rcases List.mem_cons.mp hmem with h' | h'
        · exact hc h'.symm
        · exact hpre h'⟩

lemma key_data (cid out : String) : (cid ++ "-" ++ out).data = cid.data ++ '-' :: out.data := by
  rw [String.data_append, String.data_append]
  simp [show ("-" : String).data = ['-'] from rfl]

/-- Keys of dash-free condition ids decode back to the original pair. -/
lemma splitKey_roundtrip (cid out : String) (h : '-' ∉ cid.data) :
    splitKey (cid ++ "-" ++ out) = (cid, out) := by
  unfold splitKey
  rw [key_data, jsSplitChar_append_sep '-' cid.data out.data h]
  show ((⟨cid.data⟩ : String), (⟨joinChar '-' (jsSplitChar '-' out.data)⟩ : String)) = (cid, out)
  rw [joinChar_jsSplitChar]

/-- C10. The key is `conditionId ++ "-" ++ outcome`, decoded at the first
dash: dash-free condition ids round-trip exactly; a dashed condition id
decodes to a strict prefix of itself, and distinct pairs can collide into
one key, merging their inventories (concretely, ("a-b","c") and
("a","b-c") merge into one open position under key "a-b-c"). -/
theorem claim_C10 :
    (∀ cid out : String, '-' ∉ cid.data → splitKey (cid ++ "-" ++ out) = (cid, out)) ∧
    (∀ cid out : String, '-' ∈ cid.data →
        (splitKey (cid ++ "-" ++ out)).1 ≠ cid ∧
        ∃ suf : List Char, suf ≠ [] ∧ (splitKey (cid ++ "-" ++ out)).1.data ++ suf = cid.data) ∧
    (∀ (inv : Inventory) (p : OpenPosition), p ∈ collectOpenPositions inv →
        (p.conditionId, p.outcome) = splitKey p.positionKey) ∧
    tradeKey (sampleBuy 0 "a-b" "c" 1 1) = tradeKey (sampleBuy 5 "a" "b-c" 2 2) ∧
    (generateTaxReport mmNone 2024 cexC10Trades).openPositions.map
        (fun p => (p.positionKey, p.conditionId, p.outcome, p.quantity)) =
      [("a-b-c", "a", "b-c", 3)] := by
  refine ⟨splitKey_roundtrip, ?_, ?_, by decide, ?_⟩
  · intro cid out h
    obtain ⟨pre, suf, heq, hpre⟩ := exists_first_sep '-' cid.data h
    have hkey : (cid ++ "-" ++ out).data = pre ++ '-' :: (suf ++ '-' :: out.data) := by
      rw [key_data, heq]; simp
    have hfirst : (splitKey (cid ++ "-" ++ out)).1 = ⟨pre⟩ := by
      unfold splitKey
      rw [hkey, jsSplitChar_append_sep '-' pre (suf ++ '-' :: out.data) hpre]
    constructor
    · rw [hfirst]
      intro hcontra
      have hdata : pre = cid.data := congrArg String.data hcontra
      rw [heq] at hdata
      have := congrArg List.length hdata
      simp at this
    · exact ⟨'-' :: suf, by simp, by rw [hfirst, heq]⟩
  · intro inv p hp
    exact (mem_collectOpenPositions hp).2.2.2.2.1
  · have hk1 : ("a-b" : String) ++ "-" ++ "c" = "a-b-c" := by decide
    have hk2 : ("a" : String) ++ "-" ++ "b-c" = "a-b-c" := by decide
    have hsk : splitKey "a-b-c" = ("a", "b-c") := by decide
    norm_num [generateTaxReport, sortByTimestamp, List.insertionSort, List.orderedInsert,
      normalizeTrade, processTrade, matchSellToBuys, matchLoop, mkMatchEntry, addToInventory,
      invGet, invSet, tradeKey, epsilon, round2, Polytaxes.round, mathRound, sumBy,
      collectOpenPositions, processWorthlessPositions, calculateSummary,
      cexC10Trades, sampleBuy, sampleSell, mmNone, List.filterMap_cons, hk1, hk2, hsk]

/-- Witness for C10's conditional clauses at concrete strings. -/
theorem claim_C10_witness :
    splitKey ("abc" ++ "-" ++ "No-way") = ("abc", "No-way") ∧
    (splitKey ("a-b" ++ "-" ++ "c")).1 ≠ "a-b" := by
  constructor
  · exact claim_C10.1 "abc" "No-way" (by decide)
  · exact (claim_C10.2.1 "a-b" "c" (by decide)).1

/-! ## C8: determinism and input-order independence -/

lemma normalizeTrade_timestamp (t t' : PolymarketTrade) (h : normalizeTrade t = some t') :
    t'.timestamp = t.timestamp := by
  unfold normalizeTrade at h
  by_cases h1 : t.conditionId = "" ∨ t.outcome = ""
  · rw [if_pos h1] at h; cases h
  · rw [if_neg h1] at h
    by_cases h2 : t.type = TradeType.REDEEM
    · rw [if_pos h2] at h; simp only [Option.some.injEq] at h; rw [← h]
    · rw [if_neg h2] at h; simp only [Option.some.injEq] at h; rw [← h]

lemma timestamps_filterMap_sublist (l : List PolymarketTrade) :
    ((l.filterMap normalizeTrade).map (·.timestamp)).Sublist (l.map (·.timestamp)) := by
  induction l with
  | nil => simp
  | cons t ts ih =>
    cases h : normalizeTrade t with
    | none =>
      rw [List.filterMap_cons, h, List.map_cons]
      exact ih.cons _
    | some t' =>
      rw [List.filterMap_cons, h, List.map_cons, List.map_cons,
        normalizeTrade_timestamp t t' h]
      exact ih.cons₂ _

/-- Two sorted permutations of each other with pairwise-distinct
timestamps are equal. -/
lemma sorted_eq_of_perm_nodup :
    ∀ l₁ l₂ : List PolymarketTrade,
      l₁.Sorted (fun a b => a.timestamp ≤ b.timestamp) →
      l₂.Sorted (fun a b => a.timestamp ≤ b.timestamp) →
      l₁.Perm l₂ → (l₁.map (·.timestamp)).Nodup → l₁ = l₂ := by
  intro l₁
  induction l₁ with
  | nil =>
    intro l₂ _ _ hp _
    exact (List.Perm.eq_nil hp.symm).symm
  | cons a t₁ ih =>
    intro l₂ hs₁ hs₂ hp hnd
    cases l₂ with
    | nil => cases List.Perm.eq_nil hp
    | cons b t₂ =>
      rw [List.map_cons, List.nodup_cons] at hnd
      have hab : a = b := by
        by_contra hne
        have hb : b ∈ t₁ := by
          rcases List.mem_cons.mp (hp.mem_iff.mpr (List.mem_cons_self b t₂)) with h | h
          · exact absurd h.symm hne
          · exact h
        have ha : a ∈ t₂ := by
          rcases List.mem_cons.mp (hp.mem_iff.mp (List.mem_cons_self a t₁)) with h | h
          · exact absurd h hne
          · exact h
        have h1 : a.timestamp ≤ b.timestamp := (List.sorted_cons.mp hs₁).1 b hb
        have h2 : b.timestamp ≤ a.timestamp := (List.sorted_cons.mp hs₂).1 a ha
        exact hnd.1 (List.mem_map.mpr ⟨b, hb, (le_antisymm h1 h2).symm⟩)
      subst hab
      rw [ih t₂ (List.sorted_cons.mp hs₁).2 (List.sorted_cons.mp hs₂).2 hp.cons_inv hnd.2]

/-- Permutations with pairwise-distinct timestamps normalize and sort to
the same stream. -/
lemma normalizedSorted_eq {l₁ l₂ : List PolymarketTrade} (hp : l₁.Perm l₂)
    (hd : (l₁.map (·.timestamp)).Nodup) :
    normalizedSorted l₁ = normalizedSorted l₂ := by
  have hpn : (l₁.filterMap normalizeTrade).Perm (l₂.filterMap normalizeTrade) :=
    hp.filterMap _
  have hperm : (normalizedSorted l₁).Perm (normalizedSorted l₂) :=
    (List.perm_insertionSort _ _).trans (hpn.trans (List.perm_insertionSort _ _).symm)
  have h1 : ((l₁.filterMap normalizeTrade).map (·.timestamp)).Nodup :=
    (timestamps_filterMap_sublist l₁).nodup hd
  have h2 : ((normalizedSorted l₁).map (·.timestamp)).Perm
      ((l₁.filterMap normalizeTrade).map (·.timestamp)) :=
    (List.perm_insertionSort _ _).map _
  exact sorted_eq_of_perm_nodup _ _ (List.sorted_insertionSort _ _)
    (List.sorted_insertionSort _ _) hperm (h2.symm.nodup h1)

/-- C8 (amended): with the market mapping held fixed, the pipeline is a
pure function of its input list (re-running it repeats the same report),
and any two permutations of the same trades yield identical reports
PROVIDED all timestamps are pairwise distinct; with tied timestamps the
stable sort preserves each permutation's own relative order, and reports
can differ (see the counterexample). -/
theorem claim_C8_amended (mm : String → Option MarketData) (y : ℤ)
    {l₁ l₂ : List PolymarketTrade} (hp : l₁.Perm l₂)
    (hd : (l₁.map (·.timestamp)).Nodup) :
    generateTaxReport mm y l₁ = generateTaxReport mm y l₂ := by
  simp only [generateTaxReport_def, allReportEntries, normalizedSorted_eq hp hd]

/-- Witness: a buy/sell pair presented in either order (distinct
timestamps) produces the same report. -/
theorem claim_C8_witness :
    generateTaxReport mmNone 2024 witC8a = generateTaxReport mmNone 2024 witC8b := by
  have hperm : witC8a.Perm witC8b := List.Perm.swap _ _ _
  exact claim_C8_amended mmNone 2024 hperm (by decide)

/-- C8 as stated is false: two permutations of the same multiset with a
tied timestamp produce different reports (the single matched entry's cost
basis is 10 in one order and 20 in the other). -/
theorem claim_C8_counterexample :
    cexC8a.Perm cexC8b ∧
    (generateTaxReport mmNone 2024 cexC8a).shortTerm.map (·.costBasis) = [10] ∧
    (generateTaxReport mmNone 2024 cexC8b).shortTerm.map (·.costBasis) = [20] ∧
    generateTaxReport mmNone 2024 cexC8a ≠ generateTaxReport mmNone 2024 cexC8b := by
  have hfd : Int.fdiv 10 86400 = 0 := by decide
  have h1 : (generateTaxReport mmNone 2024 cexC8a).shortTerm.map (·.costBasis) = [10] := by
    norm_num [generateTaxReport, sortByTimestamp, List.insertionSort, List.orderedInsert,
      normalizeTrade, processTrade, matchSellToBuys, matchLoop, mkMatchEntry, addToInventory,
      invGet, invSet, tradeKey, epsilon, round2, Polytaxes.round, mathRound, sumBy,
      collectOpenPositions, processWorthlessPositions, calculateSummary,
      cexC8a, sampleBuy, sampleSell, mmNone, List.filterMap_cons, hfd]
  have h2 : (generateTaxReport mmNone 2024 cexC8b).shortTerm.map (·.costBasis) = [20] := by
    norm_num [generateTaxReport, sortByTimestamp, List.insertionSort, List.orderedInsert,
      normalizeTrade, processTrade, matchSellToBuys, matchLoop, mkMatchEntry, addToInventory,
      invGet, invSet, tradeKey, epsilon, round2, Polytaxes.round, mathRound, sumBy,
      collectOpenPositions, processWorthlessPositions, calculateSummary,
      cexC8b, sampleBuy, sampleSell, mmNone, List.filterMap_cons, hfd]
  refine ⟨List.Perm.swap _ _ _, h1, h2, fun hcontra => ?_⟩
  rw [hcontra] at h1
  rw [h1] at h2
  norm_num at h2

/-! ## Rounding and cent-quantization lemmas (C5, C6) -/

lemma round2_eq (x : ℚ) : round2 x = ((⌊x * 100 + 1/2⌋ : ℤ) : ℚ) / 100 := by
  unfold round2 Polytaxes.round mathRound
  norm_num

lemma cent_round2 (x : ℚ) : Cent (round2 x) := ⟨⌊x * 100 + 1/2⌋, round2_eq x⟩

lemma cent_zero : Cent 0 := ⟨0, by norm_num⟩

lemma cent_neg {x : ℚ} (h : Cent x) : Cent (-x) := by
  obtain ⟨n, rfl⟩ := h
  exact ⟨-n, by push_cast; ring⟩

lemma cent_add {x y : ℚ} (hx : Cent x) (hy : Cent y) : Cent (x + y) := by
  obtain ⟨n, rfl⟩ := hx
  obtain ⟨m, rfl⟩ := hy
  exact ⟨n + m, by push_cast; ring⟩

lemma cent_sub {x y : ℚ} (hx : Cent x) (hy : Cent y) : Cent (x - y) := by
  have := cent_add hx (cent_neg hy)
  simpa [sub_eq_add_neg] using this

lemma cent_sumBy {α : Type} (f : α → ℚ) (l : List α) (h : ∀ a ∈ l, Cent (f a)) :
    Cent (sumBy f l) := by
  induction l with
  | nil => exact cent_zero
  | cons a l ih =>
    exact cent_add (h a (List.mem_cons_self a l))
      (ih fun b hb => h b (List.mem_cons_of_mem a hb))

lemma round2_cent {x : ℚ} (h : Cent x) : round2 x = x := by
  obtain ⟨n, rfl⟩ := h
  rw [round2_eq, div_mul_cancel₀ _ (by norm_num : (100 : ℚ) ≠ 0), Int.floor_int_add]
  norm_num

lemma roundAway2_cent {x : ℚ} (h : Cent x) : roundAway2 x = x := by
  obtain ⟨n, rfl⟩ := h
  unfold roundAway2
  by_cases h0 : (0 : ℚ) ≤ (n : ℚ) / 100
  · rw [if_pos h0, div_mul_cancel₀ _ (by norm_num : (100 : ℚ) ≠ 0), Int.floor_int_add]
    norm_num
  · rw [if_neg h0]
    have harg : -((n : ℚ) / 100) * 100 + 1/2 = ((-n : ℤ) : ℚ) + 1/2 := by
      push_cast; ring
    rw [harg, Int.floor_int_add]
    have hfl : ⌊(1/2 : ℚ)⌋ = 0 := by norm_num
    rw [hfl]
    push_cast
    ring

lemma abs_round2_sub (x : ℚ) : |round2 x - x| ≤ 1/200 := by
  rw [round2_eq]
  have h1 : x * 100 + 1/2 - 1 < (⌊x * 100 + 1/2⌋ : ℚ) := Int.sub_one_lt_floor _
  have h2 : ((⌊x * 100 + 1/2⌋ : ℤ) : ℚ) ≤ x * 100 + 1/2 := Int.floor_le _
  rw [abs_le]
  constructor <;> linarith

lemma cent_bound {a : ℚ} (h : Cent a) (hb : |a| ≤ 3/200) : |a| ≤ 1/100 := by
  obtain ⟨n, rfl⟩ := h
  have habs : |(n : ℚ) / 100| = ((|n| : ℤ) : ℚ) / 100 := by
    rw [abs_div, Int.cast_abs]
    norm_num
  rw [habs] at hb ⊢
  have hn : |n| ≤ 1 := by
    by_contra hgt
    have h2 : (2 : ℤ) ≤ |n| := by omega
    have h3 : ((2 : ℤ) : ℚ) ≤ ((|n| : ℤ) : ℚ) := by exact_mod_cast h2
    norm_num at h3
    rw [← Int.cast_abs] at h3
    linarith
  have : ((|n| : ℤ) : ℚ) ≤ 1 := by exact_mod_cast hn
  linarith

/-! ## Every emitted entry has the rounded shape -/

lemma mkMatchEntry_ok (t : PolymarketTrade) (ppt : ℚ) (lot : InventoryLot) (qty : ℚ) :
    EntryOk (mkMatchEntry t ppt lot qty) :=
  Or.inl ⟨qty * ppt, qty * lot.costBasisPerToken, rfl, rfl, rfl⟩

lemma mkOversellEntry_ok (t : PolymarketTrade) (ppt r : ℚ) :
    EntryOk (mkOversellEntry t ppt r) := by
  refine Or.inl ⟨r * ppt, 0, rfl, ?_, ?_⟩
  · show (0 : ℚ) = round2 0
    rw [round2_eq]
    norm_num
  · show round2 (r * ppt) = round2 (r * ppt - 0)
    norm_num

lemma mkWorthlessEntry_ok (p : OpenPosition) (tye : ℤ) (lot : InventoryLot) :
    EntryOk (mkWorthlessEntry p tye lot) :=
  Or.inr ⟨lot.quantity * lot.costBasisPerToken, rfl, rfl, rfl⟩

lemma matchLoop_entries_ok (t : PolymarketTrade) (ppt : ℚ) :
    ∀ (q : List InventoryLot) (remaining : ℚ) (e : Form8949Entry),
      e ∈ (matchLoop t ppt remaining q).1 → EntryOk e := by
  intro q
  induction q with
  | nil => intro remaining e he; simp [matchLoop] at he
  | cons lot rest ih =>
    intro remaining e he
    by_cases h : epsilon < remaining
    · by_cases h2 : lot.quantity - min remaining lot.quantity < epsilon
      · simp only [matchLoop, if_pos h, if_pos h2, List.mem_cons] at he
        rcases he with rfl | he
        · exact mkMatchEntry_ok _ _ _ _
        · exact ih _ e he
      · simp only [matchLoop, if_pos h, if_neg h2, List.mem_cons] at he
        rcases he with rfl | he
        · exact mkMatchEntry_ok _ _ _ _
        · simp at he
    · rw [matchLoop_low t ppt remaining _ h] at he
      simp at he

lemma matchSellToBuys_entries_ok (inv : Inventory) (k : String) (t : PolymarketTrade)
    (e : Form8949Entry) (he : e ∈ (matchSellToBuys inv k t).1) : EntryOk e := by
  unfold matchSellToBuys at he
  by_cases h : epsilon <
      (matchLoop t (t.usdcSize / t.size) t.size ((invGet inv k).getD [])).2.1
  · simp only [if_pos h] at he
    rcases List.mem_append.mp he with h' | h'
    · exact matchLoop_entries_ok t _ _ _ e h'
    · rcases List.mem_cons.mp h' with rfl | h''
      · exact mkOversellEntry_ok _ _ _
      · simp at h''
  · simp only [if_neg h] at he
    exact matchLoop_entries_ok t _ _ _ e he

lemma runEngine_entries_ok :
    ∀ (ts : List PolymarketTrade) (s : EngineState),
      (∀ e ∈ s.entries, EntryOk e) →
      ∀ e ∈ (ts.foldl processTrade s).entries, EntryOk e := by
  intro ts
  induction ts with
  | nil => intro s hs e he; exact hs e he
  | cons t ts ih =>
    intro s hs e he
    rw [List.foldl_cons] at he
    refine ih (processTrade s t) ?_ e he
    intro e' he'
    cases hside : t.side with
    | BUY =>
      simp only [processTrade, hside] at he'
      exact hs e' he'
    | SELL =>
      simp only [processTrade, hside] at he'
      rcases List.mem_append.mp he' with h | h
      · exact hs e' h
      · exact matchSellToBuys_entries_ok _ _ _ e' h

lemma allReportEntries_ok (mm : String → Option MarketData) (y : ℤ)
    (ts : List PolymarketTrade) (e : Form8949Entry)
    (he : e ∈ allReportEntries mm y ts) : EntryOk e := by
  unfold allReportEntries at he
  rcases List.mem_append.mp he with h | h
  · exact runEngine_entries_ok _ _ (fun e' h' => absurd h' (List.not_mem_nil e')) e h
  · by_cases hl : 0 < (collectOpenPositions (runEngine (normalizedSorted ts)).inventory).length
    · rw [if_pos hl, processWorthless_eq] at h
      rcases List.mem_flatMap.mp h with ⟨p, _, hp⟩
      unfold worthlessEntriesFor at hp
      by_cases hw : marketWorthless mm p
      · rw [if_pos hw] at hp
        rcases List.mem_map.mp hp with ⟨lot, _, heq⟩
        rw [← heq]
        exact mkWorthlessEntry_ok _ _ _
      · rw [if_neg hw] at hp
        cases hp
    · rw [if_neg hl] at h
      cases h

lemma entryOk_cent {e : Form8949Entry} (h : EntryOk e) :
    Cent e.proceeds ∧ Cent e.costBasis ∧ Cent e.gainLoss := by
  rcases h with ⟨qp, qc, hp, hc, hg⟩ | ⟨qc, hp, hc, hg⟩
  · exact ⟨hp ▸ cent_round2 _, hc ▸ cent_round2 _, hg ▸ cent_round2 _⟩
  · refine ⟨hp ▸ cent_zero, hc ▸ cent_round2 _, ?_⟩
    rw [hg]
    exact cent_neg (hc ▸ cent_round2 _)

/-- The one-cent bound: each entry's gain/loss is the rounding of the
unrounded difference, hence within one cent of the recomputation from its
own stored (already rounded) proceeds and cost basis. -/
lemma entryOk_gainLoss_bound {e : Form8949Entry} (h : EntryOk e) :
    |e.gainLoss - round2 (e.proceeds - e.costBasis)| ≤ 1/100 := by
  have hcents := entryOk_cent h
  have hdiff : Cent (e.proceeds - e.costBasis) := cent_sub hcents.1 hcents.2.1
  rw [round2_cent hdiff]
  rcases h with ⟨qp, qc, hp, hc, hg⟩ | ⟨qc, hp, hc, hg⟩
  · rw [hp, hc, hg]
    have h1 := abs_round2_sub (qp - qc)
    have h2 := abs_round2_sub qp
    have h3 := abs_round2_sub qc
    apply cent_bound
    · exact cent_sub (cent_round2 _) (cent_sub (cent_round2 _) (cent_round2 _))
    · rw [abs_le] at h1 h2 h3 ⊢
      constructor <;> linarith [h1.1, h1.2, h2.1, h2.2, h3.1, h3.2]
  · rw [hp, hg]
    have : -e.costBasis - (0 - e.costBasis) = 0 := by ring
    rw [this]
    norm_num

/-! ## C5: the per-entry gain/loss identity -/

/-- C5 (amended): every entry of the report either has its three amounts
independently rounded from the unrounded proceeds, cost and difference —
so `gainLoss` is within one cent of `round(proceeds − costBasis, 2)` over
the stored fields, not always equal — or is a worthless write-off with
proceeds 0 and gainLoss exactly `−costBasis`. -/
theorem claim_C5_amended (mm : String → Option MarketData) (y : ℤ)
    (ts : List PolymarketTrade) (e : Form8949Entry)
    (he : e ∈ (generateTaxReport mm y ts).shortTerm ∨
          e ∈ (generateTaxReport mm y ts).longTerm) :
    EntryOk e ∧ |e.gainLoss - round2 (e.proceeds - e.costBasis)| ≤ 1/100 := by
  have hOk : EntryOk e := by
    rw [generateTaxReport_def] at he
    rcases he with h | h
    · exact allReportEntries_ok mm y ts e (List.mem_filter.mp h).1
    · exact allReportEntries_ok mm y ts e (List.mem_filter.mp h).1
  exact ⟨hOk, entryOk_gainLoss_bound hOk⟩

/-- C5 as stated is false: buying 1 unit @ 0.996 and selling it @ 1.004
stores proceeds 1.00, cost basis 1.00 and gain/loss 0.01, but
round(proceeds − costBasis, 2) over the stored fields is 0, and the entry
is not a worthless write-off (its proceeds are nonzero). -/
theorem claim_C5_counterexample :
    (generateTaxReport mmNone 2024 cexC5Trades).shortTerm.map
        (fun e => (e.proceeds, e.costBasis, e.gainLoss)) = [(1, 1, 1/100)] ∧
    round2 ((1 : ℚ) - 1) = 0 ∧
    (1 : ℚ)/100 ≠ 0 ∧
    (1 : ℚ) ≠ 0 := by
  have hfd : Int.fdiv 86400 86400 = 1 := by decide
  refine ⟨?_, ?_, by norm_num, by norm_num⟩
  · norm_num [generateTaxReport, sortByTimestamp, List.insertionSort, List.orderedInsert,
      normalizeTrade, processTrade, matchSellToBuys, matchLoop, mkMatchEntry, addToInventory,
      invGet, invSet, tradeKey, epsilon, round2, Polytaxes.round, mathRound, sumBy,
      collectOpenPositions, processWorthlessPositions, calculateSummary,
      cexC5Trades, sampleBuy, sampleSell, mmNone, List.filterMap_cons, hfd]
  · rw [round2_eq]
    norm_num

/-- Witness for C5's amendment at the first entry of the counterexample
run. -/
theorem claim_C5_witness :
    |((generateTaxReport mmNone 2024 cexC5Trades).shortTerm.head!).gainLoss -
        round2 (((generateTaxReport mmNone 2024 cexC5Trades).shortTerm.head!).proceeds -
          ((generateTaxReport mmNone 2024 cexC5Trades).shortTerm.head!).costBasis)| ≤ 1/100 := by
  have hne : (generateTaxReport mmNone 2024 cexC5Trades).shortTerm ≠ [] := by
    have hfd : Int.fdiv 86400 86400 = 1 := by decide
    norm_num [generateTaxReport, sortByTimestamp, List.insertionSort, List.orderedInsert,
      normalizeTrade, processTrade, matchSellToBuys, matchLoop, mkMatchEntry, addToInventory,
      invGet, invSet, tradeKey, epsilon, round2, Polytaxes.round, mathRound, sumBy,
      collectOpenPositions, processWorthlessPositions, calculateSummary,
      cexC5Trades, sampleBuy, sampleSell, mmNone, List.filterMap_cons, hfd]
  exact (claim_C5_amended mmNone 2024 cexC5Trades _
    (Or.inl (List.head!_mem_self hne))).2

/-! ## C6: summary aggregation -/

lemma length_filter_not_add {α : Type} (p : α → Bool) (l : List α) :
    (l.filter fun a => !p a).length + (l.filter p).length = l.length := by
  induction l with
  | nil => rfl
  | cons a l ih =>
    cases h : p a <;> simp [List.filter_cons, h, ← ih] <;> omega

lemma sumBy_filter_not_add {α : Type} (f : α → ℚ) (p : α → Bool) (l : List α) :
    sumBy f (l.filter fun a => !p a) + sumBy f (l.filter p) = sumBy f l := by
  induction l with
  | nil => simp [sumBy]
  | cons a l ih =>
    cases h : p a <;> simp [List.filter_cons, h, sumBy, ← ih] <;> ring

/-- C6. Each partition's summary holds its length and the 2-decimal
rounded sums of its fields (the rounding is half-away-from-zero here, and
since every stored field is a whole number of cents it is in fact exact);
`totalTransactions` adds the two partition lengths; the grand total is the
independently rounded sum of gain/loss over all entries. -/
theorem claim_C6 (mm : String → Option MarketData) (y : ℤ) (ts : List PolymarketTrade) :
    (generateTaxReport mm y ts).shortTermSummary.count =
      (generateTaxReport mm y ts).shortTerm.length ∧
    (generateTaxReport mm y ts).longTermSummary.count =
      (generateTaxReport mm y ts).longTerm.length ∧
    (generateTaxReport mm y ts).shortTermSummary.totalProceeds =
      roundAway2 (sumBy (·.proceeds) (generateTaxReport mm y ts).shortTerm) ∧
    (generateTaxReport mm y ts).shortTermSummary.totalCostBasis =
      roundAway2 (sumBy (·.costBasis) (generateTaxReport mm y ts).shortTerm) ∧
    (generateTaxReport mm y ts).shortTermSummary.totalGainLoss =
      roundAway2 (sumBy (·.gainLoss) (generateTaxReport mm y ts).shortTerm) ∧
    (generateTaxReport mm y ts).longTermSummary.totalProceeds =
      roundAway2 (sumBy (·.proceeds) (generateTaxReport mm y ts).longTerm) ∧
    (generateTaxReport mm y ts).longTermSummary.totalCostBasis =
      roundAway2 (sumBy (·.costBasis) (generateTaxReport mm y ts).longTerm) ∧
    (generateTaxReport mm y ts).longTermSummary.totalGainLoss =
      roundAway2 (sumBy (·.gainLoss) (generateTaxReport mm y ts).longTerm) ∧
    (generateTaxReport mm y ts).totalTransactions =
      (generateTaxReport mm y ts).shortTerm.length +
        (generateTaxReport mm y ts).longTerm.length ∧
    (generateTaxReport mm y ts).totalGainLoss =
      round2 (sumBy (·.gainLoss) (generateTaxReport mm y ts).shortTerm +
        sumBy (·.gainLoss) (generateTaxReport mm y ts).longTerm) := by
  have hOkS : ∀ e ∈ (allReportEntries mm y ts).filter (fun e => !e.isLongTerm), EntryOk e :=
    fun e he => allReportEntries_ok mm y ts e (List.mem_filter.mp he).1
  have hOkL : ∀ e ∈ (allReportEntries mm y ts).filter (fun e => e.isLongTerm), EntryOk e :=
    fun e he => allReportEntries_ok mm y ts e (List.mem_filter.mp he).1
  have hcS : ∀ f : Form8949Entry → ℚ, (∀ e, EntryOk e → Cent (f e)) →
      Cent (sumBy f ((allReportEntries mm y ts).filter (fun e => !e.isLongTerm))) :=
    fun f hf => cent_sumBy f _ (fun a ha => hf a (hOkS a ha))
  have hcL : ∀ f : Form8949Entry → ℚ, (∀ e, EntryOk e → Cent (f e)) →
      Cent (sumBy f ((allReportEntries mm y ts).filter (fun e => e.isLongTerm))) :=
    fun f hf => cent_sumBy f _ (fun a ha => hf a (hOkL a ha))
  have hp : ∀ e : Form8949Entry, EntryOk e → Cent e.proceeds := fun e h => (entryOk_cent h).1
  have hc : ∀ e : Form8949Entry, EntryOk e → Cent e.costBasis := fun e h => (entryOk_cent h).2.1
  have hg : ∀ e : Form8949Entry, EntryOk e → Cent e.gainLoss := fun e h => (entryOk_cent h).2.2
  rw [generateTaxReport_def]
  refine ⟨rfl, rfl, ?_, ?_, ?_, ?_, ?_, ?_, ?_, ?_⟩
  · show round2 _ = roundAway2 _
    rw [round2_cent (hcS _ hp), roundAway2_cent (hcS _ hp)]
  · show round2 _ = roundAway2 _
    rw [round2_cent (hcS _ hc), roundAway2_cent (hcS _ hc)]
  · show round2 _ = roundAway2 _
    rw [round2_cent (hcS _ hg), roundAway2_cent (hcS _ hg)]
  · show round2 _ = roundAway2 _
    rw [round2_cent (hcL _ hp), roundAway2_cent (hcL _ hp)]
  · show round2 _ = roundAway2 _
    rw [round2_cent (hcL _ hc), roundAway2_cent (hcL _ hc)]
  · show round2 _ = roundAway2 _
    rw [round2_cent (hcL _ hg), roundAway2_cent (hcL _ hg)]
  · exact (length_filter_not_add (·.isLongTerm) (allReportEntries mm y ts)).symm
  · rw [sumBy_filter_not_add (·.gainLoss) (·.isLongTerm) (allReportEntries mm y ts)]

/-! ## C2: inventory bookkeeping lemmas -/

lemma sumBy_append {α : Type} (f : α → ℚ) (l1 l2 : List α) :
    sumBy f (l1 ++ l2) = sumBy f l1 + sumBy f l2 := by
  induction l1 with
  | nil => simp [sumBy]
  | cons a l ih => simp [sumBy, ih]; ring

lemma invGet_invSet_self : ∀ (inv : Inventory) (k : String) (v : List InventoryLot),
    invGet (invSet inv k v) k = some v := by
  intro inv k v
  induction inv with
  | nil => simp [invGet, invSet, List.find?_cons]
  | cons p rest ih =>
    by_cases h : p.1 = k
    · simp [invGet, invSet, List.find?_cons, h]
    · simpa [invGet, invSet, List.find?_cons, h] using ih

lemma invGet_invSet_ne : ∀ (inv : Inventory) (k k' : String) (v : List InventoryLot),
    k' ≠ k → invGet (invSet inv k' v) k = invGet inv k := by
  intro inv k k' v h
  induction inv with
  | nil => simp [invGet, invSet, List.find?_cons, h]
  | cons p rest ih =>
    by_cases hp : p.1 = k'
    · have hpk : ¬ p.1 = k := by rw [hp]; exact h
      have hset : invSet (p :: rest) k' v = (k', v) :: rest := by simp [invSet, hp]
      rw [hset]
      simp [invGet, List.find?_cons, h, hpk]
    · have hset : invSet (p :: rest) k' v = p :: invSet rest k' v := by simp [invSet, hp]
      rw [hset]
      by_cases hpk : p.1 = k
      · simp [invGet, List.find?_cons, hpk]
      · simpa [invGet, List.find?_cons, hpk] using ih

lemma nonnegInv_invGet {inv : Inventory} (h : NonnegInv inv) (k : String) :
    ∀ lot ∈ (invGet inv k).getD [], 0 ≤ lot.quantity := by
  intro lot hl
  unfold invGet at hl
  cases hf : inv.find? (fun q => decide (q.1 = k)) with
  | none => rw [hf] at hl; simp at hl
  | some p =>
    rw [hf] at hl
    simp at hl
    exact h p (List.mem_of_find?_eq_some hf) lot hl

lemma nonnegInv_invSet : ∀ (inv : Inventory) (k : String) (v : List InventoryLot),
    NonnegInv inv → (∀ lot ∈ v, 0 ≤ lot.quantity) → NonnegInv (invSet inv k v) := by
  intro inv k v hinv hv
  induction inv with
  | nil =>
    intro p hp lot hl
    have hset : invSet ([] : Inventory) k v = [(k, v)] := rfl
    rw [hset] at hp
    rcases List.mem_cons.mp hp with rfl | hp'
    · exact hv lot hl
    · cases hp'
  | cons q rest ih =>
    intro p hp lot hl
    by_cases hq : q.1 = k
    · simp only [invSet, if_pos hq, List.mem_cons] at hp
      rcases hp with rfl | hp
      · exact hv lot hl
      · exact hinv p (List.mem_cons_of_mem _ hp) lot hl
    · simp only [invSet, if_neg hq, List.mem_cons] at hp
      rcases hp with rfl | hp
      · exact hinv p (List.mem_cons_self _ _) lot hl
      · exact ih (fun p' hp' => hinv p' (List.mem_cons_of_mem _ hp')) p hp lot hl

lemma keyQ_addToInventory_self (inv : Inventory) (key : String) (t : PolymarketTrade) :
    keyQ (addToInventory inv key t) key = keyQ inv key + t.size := by
  unfold keyQ addToInventory
  rw [invGet_invSet_self]
  simp [sumBy_append, sumBy]

lemma keyQ_addToInventory_ne (inv : Inventory) (key k : String) (t : PolymarketTrade)
    (h : key ≠ k) : keyQ (addToInventory inv key t) k = keyQ inv k := by
  unfold keyQ addToInventory
  rw [invGet_invSet_ne _ _ _ _ h]

lemma addToInventory_nonneg (inv : Inventory) (key : String) (t : PolymarketTrade)
    (hinv : NonnegInv inv) (hsize : 0 ≤ t.size) : NonnegInv (addToInventory inv key t) := by
  unfold addToInventory
  apply nonnegInv_invSet _ _ _ hinv
  intro lot hl
  rcases List.mem_append.mp hl with h | h
  · exact nonnegInv_invGet hinv key lot h
  · rcases List.mem_cons.mp h with rfl | h'
    · exact hsize
    · cases h'

/-- The inventory matchSellToBuys returns, independent of the oversell
branch. -/
lemma matchSellToBuys_inventory (inv : Inventory) (k : String) (t : PolymarketTrade) :
    (matchSellToBuys inv k t).2.2 =
      if (invGet inv k).isSome then invSet inv k (sellLoopResult inv k t).2.2 else inv := by
  unfold matchSellToBuys sellLoopResult
  by_cases h : epsilon <
      (matchLoop t (t.usdcSize / t.size) t.size ((invGet inv k).getD [])).2.1
  · rw [if_pos h]
  · rw [if_neg h]

lemma sell_keyQ_self (inv : Inventory) (k : String) (t : PolymarketTrade) :
    keyQ (matchSellToBuys inv k t).2.2 k =
      sumBy (·.quantity) (sellLoopResult inv k t).2.2 := by
  rw [matchSellToBuys_inventory]
  cases hg : invGet inv k with
  | none =>
    have hq : (invGet inv k).getD [] = [] := by rw [hg]; rfl
    have hloop : sellLoopResult inv k t = ([], t.size, []) := by
      unfold sellLoopResult
      rw [hq]
      rfl
    have hif : (if (none : Option (List InventoryLot)).isSome = true
        then invSet inv k (sellLoopResult inv k t).2.2 else inv) = inv := by simp
    rw [hif, hloop]
    unfold keyQ
    rw [hg]
    rfl
  | some q =>
    have hif : (if (some q).isSome = true
        then invSet inv k (sellLoopResult inv k t).2.2 else inv) =
        invSet inv k (sellLoopResult inv k t).2.2 := by simp
    rw [hif]
    unfold keyQ
    rw [invGet_invSet_self]
    rfl

lemma sell_keyQ_ne (inv : Inventory) (key k : String) (t : PolymarketTrade) (h : key ≠ k) :
    keyQ (matchSellToBuys inv key t).2.2 k = keyQ inv k := by
  rw [matchSellToBuys_inventory]
  cases hg : invGet inv key with
  | none => simp
  | some q =>
    have hif : (if (some q).isSome = true
        then invSet inv key (sellLoopResult inv key t).2.2 else inv) =
        invSet inv key (sellLoopResult inv key t).2.2 := by simp
    rw [hif]
    unfold keyQ
    rw [invGet_invSet_ne _ _ _ _ h]

lemma processTrade_inventory (s : EngineState) (t : PolymarketTrade) :
    (processTrade s t).inventory = (processTrade ⟨s.inventory, [], []⟩ t).inventory := by
  cases h : t.side <;> simp [processTrade, h]

/-- Conservation of quantity through one sell's loop: the final remaining
stays within `[0, remaining]`, the surviving lots stay nonnegative, and
the quantity silently dropped with popped lots (queue total minus surviving
total minus matched total) lies in `[0, epsilon)`. -/
lemma matchLoop_main (t : PolymarketTrade) (ppt : ℚ) :
    ∀ (q : List InventoryLot) (remaining : ℚ),
      0 ≤ remaining → (∀ lot ∈ q, 0 ≤ lot.quantity) →
      (0 ≤ (matchLoop t ppt remaining q).2.1 ∧ (matchLoop t ppt remaining q).2.1 ≤ remaining) ∧
      (∀ lot ∈ (matchLoop t ppt remaining q).2.2, 0 ≤ lot.quantity) ∧
      0 ≤ sumBy (·.quantity) q - sumBy (·.quantity) (matchLoop t ppt remaining q).2.2 -
          (remaining - (matchLoop t ppt remaining q).2.1) ∧
      sumBy (·.quantity) q - sumBy (·.quantity) (matchLoop t ppt remaining q).2.2 -
          (remaining - (matchLoop t ppt remaining q).2.1) < epsilon := by
  intro q
  induction q with
  | nil =>
    intro remaining h0 _
    have hM : matchLoop t ppt remaining [] = ([], remaining, []) := rfl
    rw [hM]
    refine ⟨⟨h0, le_refl _⟩, fun lot hl => absurd hl (List.not_mem_nil lot), ?_, ?_⟩
    · show (0 : ℚ) ≤ sumBy (·.quantity) ([] : List InventoryLot) -
        sumBy (·.quantity) ([] : List InventoryLot) - (remaining - remaining)
      simp
    · show sumBy (·.quantity) ([] : List InventoryLot) -
        sumBy (·.quantity) ([] : List InventoryLot) - (remaining - remaining) < epsilon
      simpa using epsilon_pos
  | cons lot rest ih =>
    intro remaining h0 hq
    have hlot : 0 ≤ lot.quantity := hq lot (List.mem_cons_self _ _)
    have hrest : ∀ l ∈ rest, 0 ≤ l.quantity := fun l hl => hq l (List.mem_cons_of_mem _ hl)
    have hsum : sumBy (·.quantity) (lot :: rest) = lot.quantity + sumBy (·.quantity) rest := rfl
    by_cases h : epsilon < remaining
    · have hqty0 : 0 ≤ min remaining lot.quantity := le_min h0 hlot
      have hqtyr : min remaining lot.quantity ≤ remaining := min_le_left _ _
      have hqtyl : min remaining lot.quantity ≤ lot.quantity := min_le_right _ _
      by_cases h2 : lot.quantity - min remaining lot.quantity < epsilon
      · -- the head lot is popped
        have hM : matchLoop t ppt remaining (lot :: rest) =
            (mkMatchEntry t ppt lot (min remaining lot.quantity) ::
               (matchLoop t ppt (remaining - min remaining lot.quantity) rest).1,
             (matchLoop t ppt (remaining - min remaining lot.quantity) rest).2.1,
             (matchLoop t ppt (remaining - min remaining lot.quantity) rest).2.2) := by
          simp [matchLoop, h, h2]
        obtain ⟨⟨hr0, hrle⟩, hq', hc0, hcε⟩ :=
          ih (remaining - min remaining lot.quantity) (by linarith) hrest
        rw [hM]
        dsimp only
        rw [hsum]
        refine ⟨⟨hr0, by linarith⟩, hq', by linarith, ?_⟩
        rcases le_total remaining lot.quantity with hcase | hcase
        · -- the matched quantity was the whole remaining amount
          have hqe : min remaining lot.quantity = remaining := min_eq_left hcase
          have hz : matchLoop t ppt (remaining - min remaining lot.quantity) rest =
              ([], remaining - min remaining lot.quantity, rest) := by
            apply matchLoop_low
            rw [hqe, sub_self]
            exact not_lt.mpr (le_of_lt epsilon_pos)
          rw [hz]
          dsimp only
          rw [hqe] at h2 ⊢
          linarith
        · -- the lot was fully consumed
          have hqe : min remaining lot.quantity = lot.quantity := min_eq_right hcase
          rw [hqe] at hc0 hcε ⊢
          linarith
      · -- the head lot survives with a remainder of at least epsilon
        have hqe : min remaining lot.quantity = remaining :=
          min_eq_left_of_epsilon_le (le_of_not_lt h2)
        have hs2 : epsilon ≤ lot.quantity - remaining := by
          have := le_of_not_lt h2
          rw [hqe] at this
          exact this
        have hM : matchLoop t ppt remaining (lot :: rest) =
            ([mkMatchEntry t ppt lot (min remaining lot.quantity)],
             remaining - min remaining lot.quantity,
             { lot with quantity := lot.quantity - min remaining lot.quantity } :: rest) := by
          simp [matchLoop, h, h2]
        rw [hM]
        dsimp only
        rw [hqe, hsum]
        have hsum2 : sumBy (·.quantity)
            ({ lot with quantity := lot.quantity - remaining } :: rest) =
            (lot.quantity - remaining) + sumBy (·.quantity) rest := rfl
        rw [hsum2]
        refine ⟨⟨by linarith, by linarith⟩, ?_, by linarith, ?_⟩
        · intro l hl
          rcases List.mem_cons.mp hl with rfl | hl'
          · show (0 : ℚ) ≤ lot.quantity - remaining
            linarith [epsilon_pos]
          · exact hrest l hl'
        · linarith [epsilon_pos]
    · rw [matchLoop_low t ppt remaining _ h]
      dsimp only
      refine ⟨⟨h0, le_refl _⟩, hq, by linarith, ?_⟩
      have hz : sumBy (·.quantity) (lot :: rest) - sumBy (·.quantity) (lot :: rest) -
          (remaining - remaining) = 0 := by ring
      rw [hz]
      exact epsilon_pos

/-- One step of the audit replay. -/
lemma auditKey_cons (k : String) (inv : Inventory) (t : PolymarketTrade)
    (ts : List PolymarketTrade) :
    auditKey k inv (t :: ts) =
      if tradeKey t = k ∧ t.side = Side.SELL then
        ((auditKey k ((processTrade ⟨inv, [], []⟩ t).inventory) ts).1 +
           (t.size - (sellLoopResult inv k t).2.1) +
           (if epsilon < (sellLoopResult inv k t).2.1 then (sellLoopResult inv k t).2.1 else 0),
         (auditKey k ((processTrade ⟨inv, [], []⟩ t).inventory) ts).2.1 + 1,
         (auditKey k ((processTrade ⟨inv, [], []⟩ t).inventory) ts).2.2 ||
           decide (epsilon < (sellLoopResult inv k t).2.1))
      else auditKey k ((processTrade ⟨inv, [], []⟩ t).inventory) ts := rfl

/-- The conservation invariant carried through the whole engine pass. -/
lemma audit_main (k : String) :
    ∀ (ts : List PolymarketTrade) (s : EngineState),
      (∀ t ∈ ts, 0 ≤ t.size) → NonnegInv s.inventory →
      (auditKey k s.inventory ts).2.2 = false →
      NonnegInv ((ts.foldl processTrade s).inventory) ∧
      0 ≤ buySum k ts + keyQ s.inventory k - keyQ ((ts.foldl processTrade s).inventory) k -
          (auditKey k s.inventory ts).1 ∧
      buySum k ts + keyQ s.inventory k - keyQ ((ts.foldl processTrade s).inventory) k -
          (auditKey k s.inventory ts).1 ≤ ((auditKey k s.inventory ts).2.1 : ℚ) * epsilon := by
  intro ts
  induction ts with
  | nil =>
    intro s _ hinv _
    refine ⟨hinv, ?_, ?_⟩ <;> simp [buySum, auditKey]
  | cons t ts ih =>
    intro s hpos hinv hflag
    have hpos_t : 0 ≤ t.size := hpos t (List.mem_cons_self _ _)
    have hpos' : ∀ t' ∈ ts, 0 ≤ t'.size := fun t' h => hpos t' (List.mem_cons_of_mem _ h)
    rw [List.foldl_cons]
    rw [auditKey_cons, ← processTrade_inventory s t] at hflag ⊢
    by_cases hsell : t.side = Side.SELL
    case neg =>
      have hside : t.side = Side.BUY := by
        cases h : t.side
        · rfl
        · exact absurd h hsell
      have hcond : ¬ (tradeKey t = k ∧ t.side = Side.SELL) := fun hc => hsell hc.2
      rw [if_neg hcond] at hflag ⊢
      have hsinv : (processTrade s t).inventory = addToInventory s.inventory (tradeKey t) t := by
        simp [processTrade, hside]
      have hinv' : NonnegInv (processTrade s t).inventory := by
        rw [hsinv]
        exact addToInventory_nonneg _ _ _ hinv hpos_t
      obtain ⟨ha, hb, hc⟩ := ih (processTrade s t) hpos' hinv' hflag
      by_cases hk : tradeKey t = k
      · have hkeyQ : keyQ (processTrade s t).inventory k = keyQ s.inventory k + t.size := by
          rw [hsinv, hk]
          exact keyQ_addToInventory_self _ _ _
        have hbuy : buySum k (t :: ts) = t.size + buySum k ts := by
          simp [buySum, hside, hk]
        rw [hkeyQ] at hb hc
        rw [hbuy]
        exact ⟨ha, by linarith, by linarith⟩
      · have hkeyQ : keyQ (processTrade s t).inventory k = keyQ s.inventory k := by
          rw [hsinv]
          exact keyQ_addToInventory_ne _ _ _ _ hk
        have hbuy : buySum k (t :: ts) = buySum k ts := by
          simp [buySum, hk]
        rw [hkeyQ] at hb hc
        rw [hbuy]
        exact ⟨ha, by linarith, by linarith⟩
    case pos =>
      have hside : t.side = Side.SELL := hsell
      have hsinv : (processTrade s t).inventory =
          (matchSellToBuys s.inventory (tradeKey t) t).2.2 := by
        simp [processTrade, hside]
      have hinv' : NonnegInv (processTrade s t).inventory := by
        rw [hsinv, matchSellToBuys_inventory]
        by_cases hg : (invGet s.inventory (tradeKey t)).isSome
        · rw [if_pos hg]
          apply nonnegInv_invSet _ _ _ hinv
          intro lot hl
          exact (matchLoop_main t (t.usdcSize / t.size) ((invGet s.inventory (tradeKey t)).getD [])
            t.size hpos_t (nonnegInv_invGet hinv _)).2.1 lot hl
        · rw [if_neg hg]
          exact hinv
      have hbuy : buySum k (t :: ts) = buySum k ts := by
        simp [buySum, hside]
      by_cases hk : tradeKey t = k
      · have hcond : tradeKey t = k ∧ t.side = Side.SELL := ⟨hk, hsell⟩
        rw [if_pos hcond] at hflag ⊢
        have hflag1 : (auditKey k (processTrade s t).inventory ts).2.2 = false :=
          (Bool.or_eq_false_iff.mp hflag).1
        have hflag2 : ¬ epsilon < (sellLoopResult s.inventory k t).2.1 :=
          of_decide_eq_false (Bool.or_eq_false_iff.mp hflag).2
        obtain ⟨ha, hb, hc⟩ := ih (processTrade s t) hpos' hinv' hflag1
        have hsl : sellLoopResult s.inventory k t =
            matchLoop t (t.usdcSize / t.size) t.size ((invGet s.inventory k).getD []) := rfl
        have hcons := matchLoop_main t (t.usdcSize / t.size) ((invGet s.inventory k).getD [])
          t.size hpos_t (nonnegInv_invGet hinv k)
        obtain ⟨⟨hr0, hrle⟩, _, hd0, hdε⟩ := hcons
        have hkeyQ : keyQ (processTrade s t).inventory k =
            sumBy (·.quantity) (sellLoopResult s.inventory k t).2.2 := by
          rw [hsinv, hk]
          exact sell_keyQ_self _ _ _
        have hkeyQs : keyQ s.inventory k =
            sumBy (·.quantity) ((invGet s.inventory k).getD []) := rfl
        rw [if_neg hflag2, hbuy, hkeyQs, hsl]
        rw [hkeyQ, hsl] at hb hc
        refine ⟨ha, by linarith, ?_⟩
        push_cast
        linarith
      · have hcond : ¬ (tradeKey t = k ∧ t.side = Side.SELL) := fun hc => hk hc.1
        rw [if_neg hcond] at hflag ⊢
        have hkeyQ : keyQ (processTrade s t).inventory k = keyQ s.inventory k := by
          rw [hsinv]
          exact sell_keyQ_ne _ _ _ _ hk
        obtain ⟨ha, hb, hc⟩ := ih (processTrade s t) hpos' hinv' hflag
        rw [hkeyQ] at hb hc
        rw [hbuy]
        exact ⟨ha, by linarith, by linarith⟩

/-- C2 (amended): for every key, the sum of BUY quantities on the key
exceeds the surviving inventory plus the total quantity accounted by the
key's disposal entries by some amount in `[0, sellCount × epsilon]` — each
matched sell may silently drop one sub-epsilon lot residue, so the
discrepancy is bounded per sell, not by one global epsilon — provided no
oversell warning was recorded for the key and all trade quantities are
nonnegative. -/
theorem claim_C2_amended (ts : List PolymarketTrade) (k : String)
    (hpos : ∀ t ∈ ts, 0 ≤ t.size)
    (hno : (auditKey k [] ts).2.2 = false) :
    0 ≤ buySum k ts - keyQ (runEngine ts).inventory k - (auditKey k [] ts).1 ∧
    buySum k ts - keyQ (runEngine ts).inventory k - (auditKey k [] ts).1 ≤
      ((auditKey k [] ts).2.1 : ℚ) * epsilon := by
  have hempty : NonnegInv ([] : Inventory) := fun p hp => absurd hp (List.not_mem_nil p)
  obtain ⟨_, hb, hc⟩ := audit_main k ts ⟨[], [], []⟩ hpos hempty hno
  have hkq : keyQ ([] : Inventory) k = 0 := rfl
  rw [hkq] at hb hc
  unfold runEngine
  exact ⟨by linarith, by linarith⟩

/-- Witness for C2's amendment: buy 2, sell 1 on one key — discrepancy 0,
within one sell's epsilon allowance. -/
theorem claim_C2_witness :
    0 ≤ buySum "w-Y" witC2Trades - keyQ (runEngine witC2Trades).inventory "w-Y" -
        (auditKey "w-Y" [] witC2Trades).1 ∧
    buySum "w-Y" witC2Trades - keyQ (runEngine witC2Trades).inventory "w-Y" -
        (auditKey "w-Y" [] witC2Trades).1 ≤
      ((auditKey "w-Y" [] witC2Trades).2.1 : ℚ) * epsilon := by
  apply claim_C2_amended
  · intro t ht
    simp only [witC2Trades] at ht
    rcases List.mem_cons.mp ht with rfl | ht'
    · norm_num [sampleBuy]
    · rcases List.mem_cons.mp ht' with rfl | ht''
      · norm_num [sampleSell, sampleBuy]
      · cases ht''
  · have happ : ("w" : String) ++ "-" ++ "Y" = "w-Y" := by decide
    have hbs : (Side.BUY = Side.SELL) = False := eq_false fun h => Side.noConfusion h
    have hsb : (Side.SELL = Side.BUY) = False := eq_false fun h => Side.noConfusion h
    norm_num [auditKey, witC2Trades, sampleBuy, sampleSell, tradeKey, happ, processTrade,
      matchSellToBuys, sellLoopResult, matchLoop, addToInventory, invGet, invSet, epsilon,
      mkMatchEntry, List.find?_cons, hbs, hsb]

/-- C2 as stated is false: two buys of 1.00009 each fully matched by sells
of 1 leave no open lots and no oversell warning, yet the buys exceed the
matched total by 0.00018 > epsilon — the dropped sub-epsilon residues
accumulate per sell. -/
theorem claim_C2_counterexample :
    (auditKey "c-Y" [] cexC2Trades).2.2 = false ∧
    (auditKey "c-Y" [] cexC2Trades).1 = 2 ∧
    keyQ (runEngine cexC2Trades).inventory "c-Y" = 0 ∧
    buySum "c-Y" cexC2Trades = 100009/50000 ∧
    ¬ (buySum "c-Y" cexC2Trades - keyQ (runEngine cexC2Trades).inventory "c-Y" -
        (auditKey "c-Y" [] cexC2Trades).1 ≤ epsilon) := by
  have happ : ("c" : String) ++ "-" ++ "Y" = "c-Y" := by decide
  have hbs : (Side.BUY = Side.SELL) = False := eq_false fun h => Side.noConfusion h
  have hsb : (Side.SELL = Side.BUY) = False := eq_false fun h => Side.noConfusion h
  refine ⟨?_, ?_, ?_, ?_, ?_⟩ <;>
    norm_num [auditKey, buySum, keyQ, runEngine, cexC2Trades, sampleBuy, sampleSell, tradeKey,
      happ, processTrade, matchSellToBuys, sellLoopResult, matchLoop, addToInventory, invGet,
      invSet, epsilon, mkMatchEntry, List.find?_cons, sumBy, hbs, hsb]

end Polytaxes
